import Mathlib

/-!
Verification of the patch normalization and multi-strategy application engine
of the mat-ai-agent repository (`normalizeDiff`, `applyPatchWithFallback`,
`applyPatches` and their helpers).

Strings are modelled as lists of characters (`Str`); JavaScript
`String.prototype.split('\n')` / `Array.prototype.join('\n')` are modelled by
`splitNl` / `joinNl`.  The external functions of the `diff` npm package
(`applyPatch`, `createTwoFilesPatch`) and the `patch` subprocess are not part
of the repository; the embedded functions are parametric in them, so every
universally quantified theorem below holds for the actual program whatever
those externals do.
-/

set_option linter.unusedVariables false

/-- Strings are modelled as lists of characters. -/
abbrev Str := List Char

/-- Conversion from Lean string literals, used for concrete inputs. -/
def toL (s : String) : Str := s.data

/-- JavaScript `s.split('\n')`.  Note `"".split('\n')` is `[""]`, so the
result is never empty. -/
def splitNl : Str → List Str
  | [] => [[]]
  | c :: cs =>
    if c = '\n' then [] :: splitNl cs
    else
      match splitNl cs with
      | [] => [[c]]
      | l :: ls => (c :: l) :: ls

/-- JavaScript `lines.join('\n')`. -/
def joinNl : List Str → Str
  | [] => []
  | [l] => l
  | l :: ls => l ++ '\n' :: joinNl ls

/-- JavaScript `s.startsWith(p)`. -/
def startsWith (p s : Str) : Bool := List.isPrefixOf p s

/-- The `--- ` file header prefix tested by the source. -/
def hdrOldPrefix : Str := ['-', '-', '-']

/-- The `+++ ` file header prefix tested by the source. -/
def hdrNewPrefix : Str := ['+', '+', '+']

/-- The `@@` hunk header prefix tested by the source. -/
def hunkPrefix : Str := ['@', '@']

/-- A diff content line: starts with `' '`, `'+'` or `'-'`
(the test `line.startsWith(' ') || line.startsWith('+') || line.startsWith('-')`). -/
def isContentLine (l : Str) : Bool :=
  startsWith [' '] l || startsWith ['+'] l || startsWith ['-'] l

/-- The JavaScript regular-expression class `\s`. -/
def isJsWs (c : Char) : Bool :=
  c = ' ' || c = '\t' || c = '\n' || c = '\r' || c = '\x0b' || c = '\x0c' ||
  c = '\u00A0' || c = '\u1680' || (decide ('\u2000' ≤ c) && decide (c ≤ '\u200A')) ||
  c = '\u2028' || c = '\u2029' || c = '\u202F' || c = '\u205F' ||
  c = '\u3000' || c = '\uFEFF'

/-- The regular-expression class `\d`. -/
def isDig (c : Char) : Bool := decide ('0' ≤ c) && decide (c ≤ '9')

/-- JavaScript `parseInt` on a string of decimal digits. -/
def digitsToNat (ds : Str) : Nat := ds.foldl (fun a c => 10 * a + (c.toNat - 48)) 0

/-- The decimal digit character for `d < 10`. -/
def digitChar (d : Nat) : Char := Char.ofNat (48 + d)

/-- Decimal rendering of a natural number (template-literal `${n}`),
fuel-based so that it evaluates by kernel reduction. -/
def natToStrAux : Nat → Nat → Str
  | 0, _ => []
  | fuel + 1, n =>
    if n < 10 then [digitChar n]
    else natToStrAux fuel (n / 10) ++ [digitChar (n % 10)]

/-- Decimal rendering of a natural number. -/
def natToStr (n : Nat) : Str := natToStrAux (n + 1) n

/-- JavaScript `while (b) { t = b; b = a % b; a = t } return a`
(the gcd loop in `detectIndentation`), fuel-based; `jsGcd` supplies
sufficient fuel. -/
def jsGcdAux : Nat → Nat → Nat → Nat
  | 0, a, _ => a
  | fuel + 1, a, b => if b = 0 then a else jsGcdAux fuel b (a % b)

/-- The gcd computed by the reducer inside `detectIndentation`. -/
def jsGcd (a b : Nat) : Nat := jsGcdAux (b + 1) a b

/-- Length of the run of leading spaces of a line. -/
def countLeadingSpaces (l : Str) : Nat := (l.takeWhile (fun c => c = ' ')).length

/-- The lengths of the matches of `/^ +/gm` on the content: for every line
with at least one leading space, the length of its leading-space run. -/
def spaceRunLengths (content : Str) : List Nat :=
  (splitNl content).filterMap (fun l =>
    let n := countLeadingSpaces l
    if n = 0 then none else some n)

/-- Result type of `detectIndentation`. -/
structure Indentation where
  useTabs : Bool
  tabSize : Nat
deriving DecidableEq

/-- Embedding of `detectIndentation` (src/unnamed/part_020, lines 37-60):
counts, among the first 100 lines, lines starting with a tab versus lines
matching `/^ {2,}/`; the tab size is the gcd-reduction of all leading-space
run lengths when it lies in `[2, 8]`, else 2. -/
def detectIndentation (content : Str) : Indentation :=
  let lines := splitNl content
  let tabCount := ((lines.take 100).filter (fun l => startsWith ['\t'] l)).length
  let spaceCount := ((lines.take 100).filter (fun l => startsWith [' ', ' '] l)).length
  let tabSize :=
    match spaceRunLengths content with
    | [] => 2
    | a :: rest =>
      let g := rest.foldl jsGcd a
      if 2 ≤ g ∧ g ≤ 8 then g else 2
  { useTabs := tabCount > spaceCount, tabSize := tabSize }

/-- Per-line body of `convertSpacesToTabs` (src/unnamed/part_020, lines 73-101). -/
def convertLine (tabSize : Nat) (line : Str) : Str :=
  if startsWith hdrOldPrefix line || startsWith hdrNewPrefix line ||
      startsWith hunkPrefix line then line
  else
    match line with
    | [] => []
    | marker :: content =>
      if marker = ' ' || marker = '+' || marker = '-' then
        let leadingSpaces := countLeadingSpaces content
        if leadingSpaces ≥ tabSize then
          marker :: (List.replicate (leadingSpaces / tabSize) '\t' ++
            List.replicate (leadingSpaces % tabSize) ' ' ++ content.drop leadingSpaces)
        else line
      else line

/-- Embedding of `convertSpacesToTabs` (src/unnamed/part_020, lines 70-102). -/
def convertSpacesToTabs (diff : Str) (tabSize : Nat) : Str :=
  joinNl ((splitNl diff).map (convertLine tabSize))

/-- Line loop of `extractContentFromDiff` (src/unnamed/part_020, lines 116-134):
returns the accumulated old lines and new lines.  Note that a zero-length line
falls through every branch and is skipped. -/
def extractLines : List Str → List Str × List Str
  | [] => ([], [])
  | l :: rest =>
    let p := extractLines rest
    if startsWith hdrOldPrefix l || startsWith hdrNewPrefix l ||
        startsWith hunkPrefix l then p
    else if startsWith ['-'] l then (l.drop 1 :: p.1, p.2)
    else if startsWith ['+'] l then (p.1, l.drop 1 :: p.2)
    else if startsWith [' '] l then (l.drop 1 :: p.1, l.drop 1 :: p.2)
    else p

/-- Result type of `extractContentFromDiff`. -/
structure ExtractedContent where
  oldContent : Str
  newContent : Str
deriving DecidableEq

/-- Embedding of `extractContentFromDiff` (src/unnamed/part_020, lines 111-140). -/
def extractContentFromDiff (diff : Str) : ExtractedContent :=
  let p := extractLines (splitNl diff)
  { oldContent := joinNl p.1, newContent := joinNl p.2 }

/-- Number of binary digits of a natural number (0 for 0), fuel-based so
that it evaluates by kernel reduction. -/
def bitLenAux : Nat → Nat → Nat
  | 0, _ => 0
  | fuel + 1, n => if n = 0 then 0 else bitLenAux fuel (n / 2) + 1

/-- Number of binary digits of a natural number. -/
def natBits (n : Nat) : Nat := bitLenAux (n + 1) n

/-- Round a natural number to the nearest IEEE binary64 value
(53 significant bits, round half to even); the result is the exact natural
value of the rounded double.  Faithful whenever the value is below the
binary64 overflow threshold 2^1024, which covers every line count. -/
def rnd53 (x : Nat) : Nat :=
  if x < 2 ^ 53 then x
  else
    let t := natBits x - 53
    let q := x / 2 ^ t
    let r := x % 2 ^ t
    let half := 2 ^ (t - 1)
    (if half < r then q + 1
     else if r < half then q
     else if q % 2 = 0 then q else q + 1) * 2 ^ t

/-- The IEEE binary64 value of the literal `0.7`, scaled by `2^53`:
`double(0.7) = 6305039478318694 / 2^53 = 0.69999999999999995559…`
(0.7 · 2^53 = 6305039478318694.4 rounds down; this is the significand of
the hex representation 0x3FE6666666666666). -/
def d07num : Nat := 6305039478318694

/-- The JavaScript comparison `n > b * 0.7` in IEEE binary64 arithmetic:
`n` and `b` are converted to doubles (`rnd53`; exact for array lengths,
which are below 2^32), the product `double(b) * double(0.7)` is correctly
rounded to a double (it is the rational `rnd53 b * d07num / 2^53`, and
rounding a dyadic with denominator `2^53` to a double is `rnd53` of its
numerator), and the comparison of the two resulting doubles equals the
exact comparison of their rational values.  For example this is `true` at
`n = 63, b = 90` (90 · 0.7 rounds to 62.99999999999999289) although
63 does not exceed the exact 0.7 · 90 = 63. -/
def jsGtTimes07 (n b : Nat) : Bool :=
  decide (rnd53 n * 2 ^ 53 > rnd53 (rnd53 b * d07num))

/-- Embedding of `isFullFileDiff` (src/unnamed/part_020, lines 150-171).
The JavaScript comparison `contentLines.length > originalLineCount * 0.7`
is modelled by `jsGtTimes07`, the exact IEEE binary64 semantics of that
expression. -/
def isFullFileDiff (diff originalContent : Str) : Bool :=
  let lines := splitNl diff
  let hunkCount := (lines.filter (fun l => startsWith hunkPrefix l)).length
  if hunkCount = 1 then
    let contentLines := lines.filter isContentLine
    let originalLineCount := (splitNl originalContent).length
    jsGtTimes07 contentLines.length originalLineCount
  else false

/-- The four capture groups of the hunk header regular expression
`/@@\s+-(\d+)(?:,(\d+))?\s+\+(\d+)(?:,(\d+))?\s+@@/`: old start, optional
declared old count, new start, optional declared new count. -/
structure HunkHeader where
  oldStart : Nat
  oldCount : Option Nat
  newStart : Nat
  newCount : Option Nat
deriving DecidableEq

/-- One-or-more whitespace (`\\s+`): fails when no leading whitespace,
otherwise returns the remainder. -/
def parseWsPlus (s : Str) : Option Str :=
  let w := s.takeWhile isJsWs
  if w = [] then none else some (s.dropWhile isJsWs)

/-- One-or-more digits (`(\\d+)`): fails when no leading digit, otherwise
returns the captured value and the remainder. -/
def parseDigits (s : Str) : Option (Nat × Str) :=
  let d := s.takeWhile isDig
  if d = [] then none else some (digitsToNat d, s.dropWhile isDig)

/-- The optional count group (`(?:,(\\d+))?`): captures the digits after a
comma when present; otherwise captures nothing and consumes nothing (when a
comma is present without digits the group fails and is skipped, which makes
the overall match fail at the following `\\s+` exactly as in the regular
expression). -/
def parseOptCount (s : Str) : Option Nat × Str :=
  match s with
  | ',' :: r =>
    match parseDigits r with
    | some (n, r2) => (some n, r2)
    | none => (none, s)
  | _ => (none, s)

/-- Matching the hunk header regular expression at the start of `s`. -/
def matchHunkAt (s : Str) : Option HunkHeader :=
  match s with
  | '@' :: '@' :: r0 =>
    match parseWsPlus r0 with
    | none => none
    | some r1 =>
      match r1 with
      | '-' :: r2 =>
        match parseDigits r2 with
        | none => none
        | some (oldStart, r3) =>
          let oc := parseOptCount r3
          match parseWsPlus oc.2 with
          | none => none
          | some r5 =>
            match r5 with
            | '+' :: r6 =>
              match parseDigits r6 with
              | none => none
              | some (newStart, r7) =>
                let nc := parseOptCount r7
                match parseWsPlus nc.2 with
                | none => none
                | some r9 =>
                  match r9 with
                  | '@' :: '@' :: _ => some ⟨oldStart, oc.1, newStart, nc.1⟩
                  | _ => none
            | _ => none
      | _ => none
  | _ => none

/-- JavaScript `line.match(regex)`: leftmost match of the hunk header
regular expression anywhere in the line. -/
def findHunkHeader (s : Str) : Option HunkHeader :=
  match matchHunkAt s with
  | some h => some h
  | none =>
    match s with
    | [] => none
    | _ :: rest => findHunkHeader rest

/-- Body of the counting loop over collected hunk lines
(src/unnamed/part_020, lines 259-268): a context line increments both
counters, a removal only `oldCount`, an addition only `newCount`. -/
def hunkCountsStep (ac : Nat × Nat) (l : Str) : Nat × Nat :=
  match l with
  | ' ' :: _ => (ac.1 + 1, ac.2 + 1)
  | '-' :: _ => (ac.1 + 1, ac.2)
  | '+' :: _ => (ac.1, ac.2 + 1)
  | _ => ac

/-- The counting loop over collected hunk lines
(src/unnamed/part_020, lines 256-268): first component is `oldCount`,
second is `newCount`. -/
def hunkCounts (hunkLines : List Str) : Nat × Nat :=
  hunkLines.foldl hunkCountsStep (0, 0)

/-- The rewritten header
`@@ -${oldStart},${oldCount} +${newStart},${newCount} @@`
(src/unnamed/part_020, line 270). -/
def correctedHeader (oldStart oldCount newStart newCount : Nat) : Str :=
  '@' :: '@' :: ' ' :: '-' ::
    (natToStr oldStart ++ ',' ::
      (natToStr oldCount ++ ' ' :: '+' ::
        (natToStr newStart ++ ',' :: (natToStr newCount ++ [' ', '@', '@']))))

/-- Emission of a corrected hunk: rewritten header followed by the collected
hunk lines (src/unnamed/part_020, lines 270-272). -/
def emitHunk (hh : HunkHeader) (acc : List Str) : List Str :=
  correctedHeader hh.oldStart (hunkCounts acc).1 hh.newStart (hunkCounts acc).2 :: acc

/-- The inner `while` loop of `normalizeDiff` (src/unnamed/part_020,
lines 244-254), as a standalone function: collects hunk lines (a zero-length
line is collected as the single-space context line `' '`) until a line
starting with `@@`, a non-content non-blank line, or the end of input; the
unconsumed suffix is returned alongside. -/
def collectHunk : List Str → List Str × List Str
  | [] => ([], [])
  | l :: rest =>
    if startsWith hunkPrefix l then ([], l :: rest)
    else if isContentLine l then
      let p := collectHunk rest
      (l :: p.1, p.2)
    else if l = [] then
      let p := collectHunk rest
      ([' '] :: p.1, p.2)
    else ([], l :: rest)

/-- The main `while` loop of `normalizeDiff` (src/unnamed/part_020,
lines 221-279) as a single-pass state machine over the lines.  The state is
`none` outside a hunk and `some (hh, acc)` while collecting the hunk whose
parsed header is `hh` with collected lines `acc`.  When the inner collection
stops at a line starting with `@@` or at a non-content non-blank line, the
source loop re-processes that line in the outer loop; here that outer-loop
step is inlined so the recursion is structural. -/
def normGo : Option (HunkHeader × List Str) → List Str → List Str
  | none, [] => []
  | some (hh, acc), [] => emitHunk hh acc
  | none, l :: rest =>
    if startsWith hdrOldPrefix l || startsWith hdrNewPrefix l then l :: normGo none rest
    else if startsWith hunkPrefix l then
      match findHunkHeader l with
      | some hh => normGo (some (hh, [])) rest
      | none => l :: normGo none rest
    else l :: normGo none rest
  | some (hh, acc), l :: rest =>
    if startsWith hunkPrefix l then
      emitHunk hh acc ++
        (match findHunkHeader l with
         | some hh2 => normGo (some (hh2, [])) rest
         | none => l :: normGo none rest)
    else if isContentLine l then normGo (some (hh, acc ++ [l])) rest
    else if l = [] then normGo (some (hh, acc ++ [([' '] : Str)])) rest
    else emitHunk hh acc ++ l :: normGo none rest

/-- The header-correction pass of `normalizeDiff` on a list of lines. -/
def normalizeLines (ls : List Str) : List Str := normGo none ls

/-- Removal of `---` / `+++` lines from the regenerated diff
(src/unnamed/part_020, lines 203-206). -/
def filterFileHeaders (s : Str) : Str :=
  joinNl ((splitNl s).filter (fun l =>
    !(startsWith hdrOldPrefix l) && !(startsWith hdrNewPrefix l)))

/-- The full-file regeneration step of `normalizeDiff` (src/unnamed/part_020,
lines 188-211), parametric in the external `createTwoFilesPatch` of the
`diff` npm package (called there as
`createTwoFilesPatch('a/file', 'b/file', oldContent, newContent, '', '', { context: 3 })`;
the parameter receives the two content arguments). -/
def regeneratedDiff (ctfp : Str → Str → Str) (diff originalContent : Str) : Str :=
  if isFullFileDiff diff originalContent then
    let ec := extractContentFromDiff diff
    filterFileHeaders (ctfp ec.oldContent ec.newContent)
  else diff

/-- The whitespace-normalization stage of `normalizeDiff`
(src/unnamed/part_020, lines 213-215) applied after regeneration. -/
def tabFixedDiff (ctfp : Str → Str → Str) (diff originalContent : Str) : Str :=
  let ind := detectIndentation originalContent
  if ind.useTabs then convertSpacesToTabs (regeneratedDiff ctfp diff originalContent) ind.tabSize
  else regeneratedDiff ctfp diff originalContent

/-- Embedding of `normalizeDiff` (src/unnamed/part_020, lines 187-282),
parametric in the external `createTwoFilesPatch`. -/
def normalizeDiff (ctfp : Str → Str → Str) (diff originalContent : Str) : Str :=
  joinNl (normalizeLines (splitNl (tabFixedDiff ctfp diff originalContent)))

/-- Outcome of a call to the external `applyPatch` of the `diff` npm package:
it returns the patched string, returns `false`, or throws. -/
inductive JsApplyOutcome where
  | ok (content : Str)
  | retFalse
  | threw
deriving DecidableEq

/-- The structured result of `applyPatchWithFallback`
(src/src/utils/apply-patch-with-fallback.ts, line 41). -/
structure FallbackResult where
  success : Bool
  content : Option Str
  error : Option Str
deriving DecidableEq

/-- Instrumentation: which of the three strategies were attempted.
`patchCmd` is attempted exactly when the temp directory is created and the
external `patch` subprocess runs. -/
inductive Strategy where
  | original
  | fixed
  | patchCmd
deriving DecidableEq

/-- The failure message returned when every strategy fails
(src/src/utils/apply-patch-with-fallback.ts, line 105). -/
def patchRejectedMsg : Str := toL "Patch rejected - unable to apply with any strategy"

/-- Embedding of `applyPatchWithFallback`
(src/src/utils/apply-patch-with-fallback.ts, lines 37-107), parametric in the
external `applyPatch` (`apf`, whose non-`ok` outcomes — returning `false` or
throwing — are both swallowed) and in the strategy-3 subprocess (`pcf`, whose
`none` outcome models a `patch` failure or any filesystem error, all caught).
`ctfp` parametrizes `normalizeDiff` as above.  Strategy 3 runs only when
`filePath` is provided and non-empty (JavaScript truthiness of `filePath`).
The second component records the strategies attempted, in order. -/
def applyPatchWithFallback (apf : Str → Str → JsApplyOutcome)
    (pcf : Str → Str → Option Str) (ctfp : Str → Str → Str)
    (originalContent diff : Str) (filePath : Option Str) :
    FallbackResult × List Strategy :=
  match apf originalContent diff with
  | .ok r => ({ success := true, content := some r, error := none }, [.original])
  | _ =>
    let fixedDiff := normalizeDiff ctfp diff originalContent
    match apf originalContent fixedDiff with
    | .ok r => ({ success := true, content := some r, error := none }, [.original, .fixed])
    | _ =>
      let hasPath : Bool := match filePath with
        | some fp => decide (fp ≠ ([] : Str))
        | none => false
      if hasPath then
        match pcf originalContent (normalizeDiff ctfp diff originalContent) with
        | some r =>
          ({ success := true, content := some r, error := none },
            [.original, .fixed, .patchCmd])
        | none =>
          ({ success := false, content := none, error := some patchRejectedMsg },
            [.original, .fixed, .patchCmd])
      else
        ({ success := false, content := none, error := some patchRejectedMsg },
          [.original, .fixed])

/-- Embedding of `normalizePath` (replace every backslash by a forward
slash). -/
def normalizePath (p : Str) : Str := p.map (fun ch => if ch = '\\' then '/' else ch)

/-- Node `path.join(repoRoot, rel)`, modelled as separator joining (the
segment normalization performed by Node is irrelevant to the claims). -/
def joinPath (root rel : Str) : Str := root ++ '/' :: rel

/-- The `.backup` sibling path of a file (src/src/types/execution.ts,
`const backupPath = abs + ".backup"`). -/
def backupPathOf (abs : Str) : Str := abs ++ toL ".backup"

/-- A file modification from the executor output
(src/src/types/executor-output.ts). -/
structure FileModification where
  path : Str
  diff : Str

/-- Result of a single file patch operation (src/src/types/execution.ts,
`PatchResult`). -/
structure PatchResult where
  file : Str
  success : Bool
  error : Option Str
deriving DecidableEq

/-- The filesystem, as a map from absolute paths to file contents. -/
abbrev Fs := Str → Option Str

/-- `fs.writeFileSync` (and, with `none`, `fs.unlinkSync`). -/
def fsWrite (fs : Fs) (p : Str) (v : Option Str) : Fs :=
  fun q => if q = p then v else fs q

/-- The per-file error message recorded when the applicator fails:
JavaScript `patchResult.error || "Patch application failed"` (a missing or
empty error string falls back to the default). -/
def jsOrDefault (e : Option Str) (dflt : Str) : Str :=
  match e with
  | some s => if s = [] then dflt else s
  | none => dflt

/-- The message recorded for a missing target file
(src/src/types/execution.ts, line 136). -/
def missingFileMsg : Str := toL "File does not exist on disk."

/-- The fallback error message for a failed patch application
(src/src/types/execution.ts). -/
def patchFailedMsg : Str := toL "Patch application failed"

/-- One iteration of the `applyPatches` loop
(src/src/types/execution.ts, lines 125-168) for a single modification.
Returns the new filesystem, the recorded `PatchResult`, and a flag recording
whether `applyPatchWithFallback` was invoked.  The success branch requires
JavaScript-truthy content (`!patchResult.success || !patchResult.content`
treats missing content and the empty string as failure). -/
def applyPatchesStep (apf : Str → Str → JsApplyOutcome)
    (pcf : Str → Str → Option Str) (ctfp : Str → Str → Str)
    (repoRoot : Str) (fs : Fs) (mod : FileModification) :
    Fs × PatchResult × Bool :=
  let rel := normalizePath mod.path
  let abs := joinPath repoRoot rel
  match fs abs with
  | none => (fs, { file := rel, success := false, error := some missingFileMsg }, false)
  | some original =>
    let backupPath := backupPathOf abs
    let fs1 := fsWrite fs backupPath (some original)
    let patchResult := (applyPatchWithFallback apf pcf ctfp original mod.diff (some abs)).1
    match patchResult.content, patchResult.success with
    | some content, true =>
      if content = [] then
        (fs1, { file := rel, success := false,
                error := some (jsOrDefault patchResult.error patchFailedMsg) }, true)
      else
        let fs2 := fsWrite fs1 abs (some content)
        let fs3 := fsWrite fs2 backupPath none
        (fs3, { file := rel, success := true, error := none }, true)
    | _, _ =>
      (fs1, { file := rel, success := false,
              error := some (jsOrDefault patchResult.error patchFailedMsg) }, true)

/-- Embedding of `applyPatches` (src/src/types/execution.ts, lines 125-172):
sequentially processes the modifications, threading the filesystem and
collecting one `PatchResult` per modification. -/
def applyPatches (apf : Str → Str → JsApplyOutcome)
    (pcf : Str → Str → Option Str) (ctfp : Str → Str → Str)
    (repoRoot : Str) (fs : Fs) :
    List FileModification → Fs × List PatchResult
  | [] => (fs, [])
  | m :: ms =>
    let st := applyPatchesStep apf pcf ctfp repoRoot fs m
    let rec2 := applyPatches apf pcf ctfp repoRoot st.1 ms
    (rec2.1, st.2.1 :: rec2.2)

/-- Claim-side count: hunk lines whose first character is a space or a minus
(the claimed `oldCount`). -/
def countOldLines (hunkLines : List Str) : Nat :=
  (hunkLines.filter (fun l => startsWith [' '] l || startsWith ['-'] l)).length

/-- Claim-side count: hunk lines whose first character is a space or a plus
(the claimed `newCount`). -/
def countNewLines (hunkLines : List Str) : Nat :=
  (hunkLines.filter (fun l => startsWith [' '] l || startsWith ['+'] l)).length

/-- Number of hunk headers of a diff (lines starting with `@@`). -/
def hunkHeaderCount (diff : Str) : Nat :=
  ((splitNl diff).filter (fun l => startsWith hunkPrefix l)).length

/-- Number of lines of a diff starting with a space, a plus or a minus;
this is what `isFullFileDiff` actually counts, and it includes the
`---` / `+++` file header lines. -/
def prefixedLineCount (diff : Str) : Nat :=
  ((splitNl diff).filter isContentLine).length

/-- Line count of the original content, as computed by the source
(`originalContent.split('\n').length`). -/
def originalLineCount (content : Str) : Nat := (splitNl content).length

/-- Claim-side count for C4: the content lines of the hunk itself, excluding
the `---` / `+++` file header lines (the claim reads "that hunk's content
lines"). -/
def claimHunkContentCount (diff : Str) : Nat :=
  ((splitNl diff).filter (fun l =>
    isContentLine l && !(startsWith hdrOldPrefix l) && !(startsWith hdrNewPrefix l))).length

/-- Claim-side count for C8: lines among the first 100 starting with a tab. -/
def tabLineCount (content : Str) : Nat :=
  (((splitNl content).take 100).countP (fun l => startsWith ['\t'] l))

/-- Claim-side count for C8: lines among the first 100 starting with two or
more spaces. -/
def spaceLineCount (content : Str) : Nat :=
  (((splitNl content).take 100).countP (fun l => startsWith [' ', ' '] l))

/-- Model of the external jsdiff call
`createTwoFilesPatch('a/file', 'b/file', oldStr, newStr, '', '', { context: 3 })`
restricted to the only case the counterexample below evaluates it at:
`oldStr = newStr`.  On equal inputs jsdiff produces no hunks, so the patch is
the 67-character separator line, the two file header lines, and a trailing
newline.  (For unequal inputs the real function emits hunks; no theorem here
evaluates this model at unequal inputs.) -/
def createTwoFilesPatchEq (oldStr newStr : Str) : Str :=
  List.replicate 67 '=' ++ '\n' :: (toL "--- a/file\t" ++ '\n' :: (toL "+++ b/file\t" ++ ['\n']))

@[simp]
theorem startsWith_nil_left (s : Str) : startsWith [] s = true := by
  simp [startsWith, List.isPrefixOf]

@[simp]
theorem startsWith_cons_nil (a : Char) (as : Str) : startsWith (a :: as) [] = false := by
  simp [startsWith, List.isPrefixOf]

@[simp]
theorem startsWith_cons_cons (a b : Char) (as bs : Str) :
    startsWith (a :: as) (b :: bs) = ((a == b) && startsWith as bs) := by
  simp [startsWith, List.isPrefixOf]

theorem splitNl_ne_nil (s : Str) : splitNl s ≠ [] := by
  induction s with
  | nil => simp [splitNl]
  | cons c cs ih =>
    rw [splitNl]
    by_cases h : c = '\n'
    · simp [h]
    · simp only [if_neg h]
      rcases hcs : splitNl cs with _ | ⟨l, ls⟩
      · exact absurd hcs ih
      · simp

theorem noNl_of_mem_splitNl (s l : Str) (h : l ∈ splitNl s) : '\n' ∉ l := by
  induction s generalizing l with
  | nil =>
    simp [splitNl] at h
    simp [h]
  | cons c cs ih =>
    rw [splitNl] at h
    by_cases hc : c = '\n'
    · rw [if_pos hc] at h
      rcases List.mem_cons.mp h with h | h
      · simp [h]
      · exact ih l h
    · rw [if_neg hc] at h
      rcases hcs : splitNl cs with _ | ⟨l0, ls0⟩
      · exact absurd hcs (splitNl_ne_nil cs)
      · rw [hcs] at h
        rcases List.mem_cons.mp h with h | h
        · subst h
          intro hmem
          rcases List.mem_cons.mp hmem with h1 | h1
          · exact hc h1.symm
          · exact ih l0 (by rw [hcs]; exact List.mem_cons_self _ _) h1
        · exact ih l (by rw [hcs]; exact List.mem_cons_of_mem _ h)

theorem splitNl_single (l : Str) (h : '\n' ∉ l) : splitNl l = [l] := by
  induction l with
  | nil => simp [splitNl]
  | cons c cs ih =>
    have hc : c ≠ '\n' := fun he => h (by simp [he])
    rw [splitNl, if_neg hc, ih (fun hm => h (by simp [hm]))]

theorem splitNl_append_cons (l s : Str) (h : '\n' ∉ l) :
    splitNl (l ++ '\n' :: s) = l :: splitNl s := by
  induction l with
  | nil => simp [splitNl]
  | cons c cs ih =>
    have hc : c ≠ '\n' := fun he => h (by simp [he])
    rw [List.cons_append, splitNl, if_neg hc, ih (fun hm => h (by simp [hm]))]

theorem splitNl_joinNl (ls : List Str) (hne : ls ≠ [])
    (h : ∀ l ∈ ls, '\n' ∉ l) : splitNl (joinNl ls) = ls := by
  induction ls with
  | nil => exact absurd rfl hne
  | cons l rest ih =>
    rcases rest with _ | ⟨l2, rest2⟩
    · exact splitNl_single l (h l (by simp))
    · rw [show joinNl (l :: l2 :: rest2) = l ++ '\n' :: joinNl (l2 :: rest2) from rfl,
        splitNl_append_cons l _ (h l (by simp)),
        ih (fun hh => List.noConfusion hh) (fun x hx => h x (by simp [hx]))]

theorem takeWhile_append_eq {p : Char → Bool} {xs : Str} (y : Char) (ys : Str)
    (hall : ∀ x ∈ xs, p x = true) (hy : p y = false) :
    (xs ++ y :: ys).takeWhile p = xs := by
  induction xs with
  | nil => simp [List.takeWhile, hy]
  | cons a as ih =>
    have ha : p a = true := hall a (by simp)
    rw [List.cons_append, List.takeWhile_cons, if_pos ha,
      ih (fun x hx => hall x (by simp [hx]))]

theorem dropWhile_append_eq {p : Char → Bool} {xs : Str} (y : Char) (ys : Str)
    (hall : ∀ x ∈ xs, p x = true) (hy : p y = false) :
    (xs ++ y :: ys).dropWhile p = y :: ys := by
  induction xs with
  | nil => simp [List.dropWhile, hy]
  | cons a as ih =>
    have ha : p a = true := hall a (by simp)
    rw [List.cons_append, List.dropWhile_cons, if_pos ha]
    exact ih (fun x hx => hall x (by simp [hx]))

theorem digitChar_isDig {d : Nat} (h : d < 10) : isDig (digitChar d) = true := by
  interval_cases d <;> decide

theorem digitChar_toNat {d : Nat} (h : d < 10) : (digitChar d).toNat = 48 + d := by
  interval_cases d <;> decide

theorem isDig_ne_nl {c : Char} (h : isDig c = true) : c ≠ '\n' := by
  intro he
  subst he
  exact absurd h (by decide)

theorem natToStrAux_fuel (f1 f2 n : Nat) (h1 : n < f1) (h2 : n < f2) :
    natToStrAux f1 n = natToStrAux f2 n := by
  induction f1 generalizing f2 n with
  | zero => omega
  | succ f1 ih =>
    rcases f2 with _ | f2
    · omega
    · rw [natToStrAux, natToStrAux]
      by_cases hn : n < 10
      · simp [hn]
      · simp only [if_neg hn]
        have hd : n / 10 < n := Nat.div_lt_self (by omega) (by omega)
        rw [ih f2 (n / 10) (by omega) (by omega)]

theorem natToStr_unfold (n : Nat) :
    natToStr n = if n < 10 then [digitChar n]
      else natToStr (n / 10) ++ [digitChar (n % 10)] := by
  rw [natToStr, natToStrAux]
  by_cases hn : n < 10
  · simp [hn]
  · simp only [if_neg hn]
    have hd : n / 10 < n := Nat.div_lt_self (by omega) (by omega)
    rw [natToStrAux_fuel n (n / 10 + 1) (n / 10) (by omega) (by omega)]
    rfl

theorem natToStr_all_digits (n : Nat) : ∀ c ∈ natToStr n, isDig c = true := by
  induction n using Nat.strong_induction_on with
  | _ n ih =>
    rw [natToStr_unfold]
    by_cases hn : n < 10
    · simp only [if_pos hn]
      intro c hc
      simp at hc
      subst hc
      exact digitChar_isDig hn
    · simp only [if_neg hn]
      intro c hc
      rcases List.mem_append.mp hc with h | h
      · exact ih (n / 10) (Nat.div_lt_self (by omega) (by omega)) c h
      · simp at h
        subst h
        exact digitChar_isDig (Nat.mod_lt _ (by omega))

theorem natToStr_ne_nil (n : Nat) : natToStr n ≠ [] := by
  rw [natToStr_unfold]
  by_cases hn : n < 10
  · simp [hn]
  · simp [hn]

theorem digitsToNat_append_singleton (xs : Str) (c : Char) :
    digitsToNat (xs ++ [c]) = 10 * digitsToNat xs + (c.toNat - 48) := by
  simp [digitsToNat, List.foldl_append]

theorem digitsToNat_natToStr (n : Nat) : digitsToNat (natToStr n) = n := by
  induction n using Nat.strong_induction_on with
  | _ n ih =>
    rw [natToStr_unfold]
    by_cases hn : n < 10
    · simp only [if_pos hn]
      show digitsToNat ([] ++ [digitChar n]) = n
      rw [digitsToNat_append_singleton, digitChar_toNat hn]
      simp [digitsToNat]
    · simp only [if_neg hn]
      rw [digitsToNat_append_singleton, ih (n / 10) (Nat.div_lt_self (by omega) (by omega)),
        digitChar_toNat (Nat.mod_lt _ (by omega))]
      omega

theorem joinNl_cons (l : Str) (ls : List Str) (h : ls ≠ []) :
    joinNl (l :: ls) = l ++ '\n' :: joinNl ls := by
  cases ls with
  | nil => exact absurd rfl h
  | cons a t => rfl

theorem startsWith_of_startsWith_cons {a : Char} {as l : Str}
    (h : startsWith (a :: as) l = true) : startsWith [a] l = true := by
  rcases l with _ | ⟨c, t⟩
  · simp at h
  · simp at h
    simp [h.1]

theorem hunkPrefix_shape {l : Str} (h : startsWith hunkPrefix l = true) :
    ∃ t, l = '@' :: '@' :: t := by
  rcases l with _ | ⟨c1, l1⟩
  · simp [hunkPrefix] at h
  · rcases l1 with _ | ⟨c2, l2⟩
    · simp [hunkPrefix] at h
    · simp [hunkPrefix] at h
      obtain ⟨h1, h2⟩ := h
      subst h1
      subst h2
      exact ⟨l2, rfl⟩

theorem hunk_not_hdrOld {l : Str} (h : startsWith hunkPrefix l = true) :
    startsWith hdrOldPrefix l = false := by
  obtain ⟨t, rfl⟩ := hunkPrefix_shape h
  simp [hdrOldPrefix]

theorem hunk_not_hdrNew {l : Str} (h : startsWith hunkPrefix l = true) :
    startsWith hdrNewPrefix l = false := by
  obtain ⟨t, rfl⟩ := hunkPrefix_shape h
  simp [hdrNewPrefix]

theorem contentLine_shape {l : Str} (h : isContentLine l = true) :
    ∃ c t, l = c :: t ∧ (c = ' ' ∨ c = '+' ∨ c = '-') := by
  rcases l with _ | ⟨c, t⟩
  · simp [isContentLine] at h
  · refine ⟨c, t, rfl, ?_⟩
    simp [isContentLine] at h
    rcases h with (h | h) | h <;> subst h <;> simp

theorem content_not_hunk {l : Str} (h : isContentLine l = true) :
    startsWith hunkPrefix l = false := by
  obtain ⟨c, t, rfl, hc⟩ := contentLine_shape h
  rcases hc with h1 | h1 | h1 <;> subst h1 <;> simp [hunkPrefix]

theorem content_ne_nil {l : Str} (h : isContentLine l = true) : l ≠ [] := by
  obtain ⟨c, t, rfl, _⟩ := contentLine_shape h
  simp

theorem not_content_not_hdrOld {l : Str} (h : isContentLine l = false) :
    startsWith hdrOldPrefix l = false := by
  by_contra hcon
  rw [Bool.not_eq_false] at hcon
  have := startsWith_of_startsWith_cons (l := l) (by
    simpa [hdrOldPrefix] using hcon)
  simp [isContentLine, this] at h

theorem not_content_not_hdrNew {l : Str} (h : isContentLine l = false) :
    startsWith hdrNewPrefix l = false := by
  by_contra hcon
  rw [Bool.not_eq_false] at hcon
  have := startsWith_of_startsWith_cons (l := l) (by
    simpa [hdrNewPrefix] using hcon)
  simp [isContentLine, this] at h

theorem hunkCountsStep_eq (ac : Nat × Nat) (l : Str) :
    hunkCountsStep ac l =
      (ac.1 + (if startsWith [' '] l || startsWith ['-'] l then 1 else 0),
       ac.2 + (if startsWith [' '] l || startsWith ['+'] l then 1 else 0)) := by
  unfold hunkCountsStep
  split
  · simp
  · simp
  · simp
  · rename_i hsp hmn hpl
    rcases l with _ | ⟨c, t⟩
    · simp
    · have hc1 : c ≠ ' ' := fun he => hsp t (by rw [he])
      have hc2 : c ≠ '-' := fun he => hmn t (by rw [he])
      have hc3 : c ≠ '+' := fun he => hpl t (by rw [he])
      have h1 : ¬(' ' = c ∨ '-' = c) := by
        rintro (he | he)
        · exact hc1 he.symm
        · exact hc2 he.symm
      have h2 : ¬(' ' = c ∨ '+' = c) := by
        rintro (he | he)
        · exact hc1 he.symm
        · exact hc3 he.symm
      simp [h1, h2]

theorem hunkCounts_shift (t : List Str) : ∀ (a b : Nat),
    t.foldl hunkCountsStep (a, b) = (a + (hunkCounts t).1, b + (hunkCounts t).2) := by
  induction t with
  | nil => intro a b; simp [hunkCounts]
  | cons l t ih =>
    intro a b
    have base : hunkCounts (l :: t) = t.foldl hunkCountsStep (hunkCountsStep (0, 0) l) := by
      simp [hunkCounts]
    rw [List.foldl_cons, hunkCountsStep_eq, ih, base, hunkCountsStep_eq, ih]
    simp
    omega

theorem hunkCounts_cons (l : Str) (t : List Str) :
    hunkCounts (l :: t) =
      ((if startsWith [' '] l || startsWith ['-'] l then 1 else 0) + (hunkCounts t).1,
       (if startsWith [' '] l || startsWith ['+'] l then 1 else 0) + (hunkCounts t).2) := by
  show (l :: t).foldl hunkCountsStep (0, 0) = _
  rw [List.foldl_cons, hunkCountsStep_eq, hunkCounts_shift]
  simp

theorem filter_length_cons (p : Str → Bool) (l : Str) (t : List Str) :
    ((l :: t).filter p).length = (if p l then 1 else 0) + (t.filter p).length := by
  by_cases hp : p l
  · simp [List.filter_cons, hp]
    omega
  · simp [List.filter_cons, hp]

theorem hunkCounts_eq_counts (h : List Str) :
    hunkCounts h = (countOldLines h, countNewLines h) := by
  induction h with
  | nil => simp [hunkCounts, countOldLines, countNewLines]
  | cons l t ih =>
    rw [hunkCounts_cons, ih]
    have co : countOldLines (l :: t) =
        (if startsWith [' '] l || startsWith ['-'] l then 1 else 0) + countOldLines t :=
      filter_length_cons _ l t
    have cn : countNewLines (l :: t) =
        (if startsWith [' '] l || startsWith ['+'] l then 1 else 0) + countNewLines t :=
      filter_length_cons _ l t
    rw [co, cn]


theorem collectHunk_hunk {l : Str} (rest : List Str) (h : startsWith hunkPrefix l = true) :
    collectHunk (l :: rest) = ([], l :: rest) := by
  rw [collectHunk]
  simp [h]

theorem collectHunk_content {l : Str} (rest : List Str)
    (h1 : startsWith hunkPrefix l = false) (h2 : isContentLine l = true) :
    collectHunk (l :: rest) = (l :: (collectHunk rest).1, (collectHunk rest).2) := by
  rw [collectHunk]
  simp [h1, h2]

theorem collectHunk_blank (rest : List Str) :
    collectHunk ([] :: rest) = ([' '] :: (collectHunk rest).1, (collectHunk rest).2) := by
  rw [collectHunk]
  rw [if_neg (by decide), if_neg (by decide), if_pos rfl]

theorem collectHunk_break {l : Str} (rest : List Str)
    (h1 : startsWith hunkPrefix l = false) (h2 : isContentLine l = false) (h3 : l ≠ []) :
    collectHunk (l :: rest) = ([], l :: rest) := by
  rw [collectHunk]
  simp [h1, h2, h3]

theorem collectHunk_len (ls : List Str) : (collectHunk ls).2.length ≤ ls.length := by
  induction ls with
  | nil => simp [collectHunk]
  | cons l rest ih =>
    by_cases h1 : startsWith hunkPrefix l
    · rw [collectHunk_hunk rest h1]
    · rw [Bool.not_eq_true] at h1
      by_cases h2 : isContentLine l
      · rw [collectHunk_content rest h1 h2]
        simp
        omega
      · rw [Bool.not_eq_true] at h2
        by_cases h3 : l = []
        · subst h3
          rw [collectHunk_blank rest]
          simp
          omega
        · rw [collectHunk_break rest h1 h2 h3]

theorem collectHunk_body_content (ls : List Str) :
    ∀ b ∈ (collectHunk ls).1, isContentLine b = true := by
  induction ls with
  | nil => simp [collectHunk]
  | cons l rest ih =>
    by_cases h1 : startsWith hunkPrefix l
    · rw [collectHunk_hunk rest h1]
      simp
    · rw [Bool.not_eq_true] at h1
      by_cases h2 : isContentLine l
      · rw [collectHunk_content rest h1 h2]
        intro b hb
        rcases List.mem_cons.mp hb with hb | hb
        · rw [hb]
          exact h2
        · exact ih b hb
      · rw [Bool.not_eq_true] at h2
        by_cases h3 : l = []
        · subst h3
          rw [collectHunk_blank rest]
          intro b hb
          rcases List.mem_cons.mp hb with hb | hb
          · rw [hb]
            decide
          · exact ih b hb
        · rw [collectHunk_break rest h1 h2 h3]
          simp

theorem collectHunk_rest_shape (ls : List Str) :
    (collectHunk ls).2 = [] ∨
      ∃ h t, (collectHunk ls).2 = h :: t ∧
        (startsWith hunkPrefix h = true ∨ (isContentLine h = false ∧ h ≠ [])) := by
  induction ls with
  | nil => simp [collectHunk]
  | cons l rest ih =>
    by_cases h1 : startsWith hunkPrefix l
    · rw [collectHunk_hunk rest h1]
      exact Or.inr ⟨l, rest, rfl, Or.inl h1⟩
    · rw [Bool.not_eq_true] at h1
      by_cases h2 : isContentLine l
      · rw [collectHunk_content rest h1 h2]
        simpa using ih
      · rw [Bool.not_eq_true] at h2
        by_cases h3 : l = []
        · subst h3
          rw [collectHunk_blank rest]
          simpa using ih
        · rw [collectHunk_break rest h1 h2 h3]
          exact Or.inr ⟨l, rest, rfl, Or.inr ⟨h2, h3⟩⟩

theorem collectHunk_append_content (body : List Str) (tail : List Str)
    (h : ∀ b ∈ body, isContentLine b = true) :
    collectHunk (body ++ tail) = (body ++ (collectHunk tail).1, (collectHunk tail).2) := by
  induction body with
  | nil => simp
  | cons b body ih =>
    have hb : isContentLine b = true := h b (by simp)
    rw [List.cons_append, collectHunk_content _ (content_not_hunk hb) hb,
      ih (fun x hx => h x (by simp [hx]))]
    simp

theorem normGo_none_nil : normGo none [] = [] := rfl

theorem normGo_some_nil (hh : HunkHeader) (acc : List Str) :
    normGo (some (hh, acc)) [] = emitHunk hh acc := rfl

theorem normGo_none_hdr {l : Str} (rest : List Str)
    (h : startsWith hdrOldPrefix l = true ∨ startsWith hdrNewPrefix l = true) :
    normGo none (l :: rest) = l :: normGo none rest := by
  rw [normGo]
  rcases h with h | h <;> simp [h]

theorem normGo_none_hunk_some {l : Str} (rest : List Str) (hh : HunkHeader)
    (ha : startsWith hunkPrefix l = true) (hp : findHunkHeader l = some hh) :
    normGo none (l :: rest) = normGo (some (hh, [])) rest := by
  rw [normGo]
  simp [hunk_not_hdrOld ha, hunk_not_hdrNew ha, ha, hp]

theorem normGo_none_hunk_none {l : Str} (rest : List Str)
    (ha : startsWith hunkPrefix l = true) (hp : findHunkHeader l = none) :
    normGo none (l :: rest) = l :: normGo none rest := by
  rw [normGo]
  simp [hunk_not_hdrOld ha, hunk_not_hdrNew ha, ha, hp]

theorem normGo_none_other {l : Str} (rest : List Str)
    (h1 : startsWith hdrOldPrefix l = false) (h2 : startsWith hdrNewPrefix l = false)
    (h3 : startsWith hunkPrefix l = false) :
    normGo none (l :: rest) = l :: normGo none rest := by
  rw [normGo]
  simp [h1, h2, h3]

theorem normGo_some_hunk {l : Str} (rest : List Str) (hh : HunkHeader) (acc : List Str)
    (ha : startsWith hunkPrefix l = true) :
    normGo (some (hh, acc)) (l :: rest) = emitHunk hh acc ++ normGo none (l :: rest) := by
  conv_lhs => rw [normGo]
  cases hp : findHunkHeader l with
  | some hh2 =>
    rw [normGo_none_hunk_some rest hh2 ha hp]
    simp [ha]
  | none =>
    rw [normGo_none_hunk_none rest ha hp]
    simp [ha]

theorem normGo_some_content {l : Str} (rest : List Str) (hh : HunkHeader) (acc : List Str)
    (h1 : startsWith hunkPrefix l = false) (h2 : isContentLine l = true) :
    normGo (some (hh, acc)) (l :: rest) = normGo (some (hh, acc ++ [l])) rest := by
  rw [normGo]
  simp [h1, h2]

theorem normGo_some_blank (rest : List Str) (hh : HunkHeader) (acc : List Str) :
    normGo (some (hh, acc)) ([] :: rest) = normGo (some (hh, acc ++ [([' '] : Str)])) rest := by
  rw [normGo]
  rw [if_neg (by decide), if_neg (by decide), if_pos rfl]

theorem normGo_some_break {l : Str} (rest : List Str) (hh : HunkHeader) (acc : List Str)
    (h1 : startsWith hunkPrefix l = false) (h2 : isContentLine l = false) (h3 : l ≠ []) :
    normGo (some (hh, acc)) (l :: rest) = emitHunk hh acc ++ l :: normGo none rest := by
  rw [normGo]
  simp [h1, h2, h3]

theorem normGo_inside (rest : List Str) : ∀ (hh : HunkHeader) (acc : List Str),
    normGo (some (hh, acc)) rest =
      emitHunk hh (acc ++ (collectHunk rest).1) ++ normGo none (collectHunk rest).2 := by
  induction rest with
  | nil =>
    intro hh acc
    simp [normGo_some_nil, collectHunk, normGo_none_nil]
  | cons l rest ih =>
    intro hh acc
    by_cases h1 : startsWith hunkPrefix l
    · rw [normGo_some_hunk rest hh acc h1, collectHunk_hunk rest h1]
      simp
    · rw [Bool.not_eq_true] at h1
      by_cases h2 : isContentLine l
      · rw [normGo_some_content rest hh acc h1 h2, collectHunk_content rest h1 h2, ih]
        simp
      · rw [Bool.not_eq_true] at h2
        by_cases h3 : l = []
        · subst h3
          rw [normGo_some_blank rest hh acc, collectHunk_blank rest, ih]
          simp
        · rw [normGo_some_break rest hh acc h1 h2 h3, collectHunk_break rest h1 h2 h3,
            normGo_none_other rest (not_content_not_hdrOld h2) (not_content_not_hdrNew h2) h1]
          simp

theorem normalizeLines_hunk {l : Str} (rest : List Str) (hh : HunkHeader)
    (ha : startsWith hunkPrefix l = true) (hp : findHunkHeader l = some hh) :
    normalizeLines (l :: rest) =
      correctedHeader hh.oldStart (countOldLines (collectHunk rest).1)
          hh.newStart (countNewLines (collectHunk rest).1)
        :: (collectHunk rest).1 ++ normalizeLines (collectHunk rest).2 := by
  show normGo none (l :: rest) = _
  rw [normGo_none_hunk_some rest hh ha hp, normGo_inside]
  simp [emitHunk, hunkCounts_eq_counts, normalizeLines]

theorem parseWsPlus_space (c : Char) (t : Str) (hc : isJsWs c = false) :
    parseWsPlus (' ' :: c :: t) = some (c :: t) := by
  rw [parseWsPlus]
  simp only [List.takeWhile_cons, if_pos (show isJsWs ' ' = true by decide), hc,
    List.dropWhile_cons, if_neg (show ¬isJsWs c = true by simp [hc])]
  simp [hc]

theorem parseDigits_append (D : Str) (hD : ∀ c ∈ D, isDig c = true) (hne : D ≠ [])
    (c : Char) (t : Str) (hc : isDig c = false) :
    parseDigits (D ++ c :: t) = some (digitsToNat D, c :: t) := by
  rw [parseDigits]
  simp only [takeWhile_append_eq c t hD hc, dropWhile_append_eq c t hD hc]
  simp [hne]

theorem parseOptCount_comma (D : Str) (hD : ∀ c ∈ D, isDig c = true) (hne : D ≠ [])
    (c : Char) (t : Str) (hc : isDig c = false) :
    parseOptCount (',' :: (D ++ c :: t)) = (some (digitsToNat D), c :: t) := by
  rw [parseOptCount, parseDigits_append D hD hne c t hc]

theorem matchHunkAt_header_shape (A X B Y : Str)
    (hA : ∀ c ∈ A, isDig c = true) (hAne : A ≠ [])
    (hX : ∀ c ∈ X, isDig c = true) (hXne : X ≠ [])
    (hB : ∀ c ∈ B, isDig c = true) (hBne : B ≠ [])
    (hY : ∀ c ∈ Y, isDig c = true) (hYne : Y ≠ []) :
    matchHunkAt ('@' :: '@' :: ' ' :: '-' ::
        (A ++ ',' :: (X ++ ' ' :: '+' :: (B ++ ',' :: (Y ++ [' ', '@', '@']))))) =
      some ⟨digitsToNat A, some (digitsToNat X), digitsToNat B, some (digitsToNat Y)⟩ := by
  rw [matchHunkAt]
  rw [parseWsPlus_space '-' _ (by decide)]
  simp only
  rw [parseDigits_append A hA hAne ',' _ (by decide)]
  simp only
  rw [parseOptCount_comma X hX hXne ' ' _ (by decide)]
  simp only
  rw [parseWsPlus_space '+' _ (by decide)]
  simp only
  rw [parseDigits_append B hB hBne ',' _ (by decide)]
  simp only
  rw [show (Y ++ [' ', '@', '@']) = Y ++ ' ' :: ['@', '@'] from rfl,
    parseOptCount_comma Y hY hYne ' ' _ (by decide)]
  simp only
  rw [parseWsPlus_space '@' _ (by decide)]
  rfl

theorem matchHunkAt_correctedHeader (a x b y : Nat) :
    matchHunkAt (correctedHeader a x b y) = some ⟨a, some x, b, some y⟩ := by
  rw [correctedHeader,
    matchHunkAt_header_shape (natToStr a) (natToStr x) (natToStr b) (natToStr y)
      (natToStr_all_digits a) (natToStr_ne_nil a)
      (natToStr_all_digits x) (natToStr_ne_nil x)
      (natToStr_all_digits b) (natToStr_ne_nil b)
      (natToStr_all_digits y) (natToStr_ne_nil y),
    digitsToNat_natToStr, digitsToNat_natToStr, digitsToNat_natToStr, digitsToNat_natToStr]

theorem findHunkHeader_cons_eq (c : Char) (rest : Str) :
    findHunkHeader (c :: rest) =
      match matchHunkAt (c :: rest) with
      | some h => some h
      | none => findHunkHeader rest := findHunkHeader.eq_2 c rest

theorem findHunkHeader_correctedHeader (a x b y : Nat) :
    findHunkHeader (correctedHeader a x b y) = some ⟨a, some x, b, some y⟩ := by
  have h := matchHunkAt_correctedHeader a x b y
  rw [correctedHeader] at h ⊢
  rw [findHunkHeader_cons_eq, h]

theorem correctedHeader_starts_hunk (a x b y : Nat) :
    startsWith hunkPrefix (correctedHeader a x b y) = true := by
  rw [correctedHeader]
  simp [hunkPrefix]

theorem nl_not_mem_natToStr (n : Nat) : '\n' ∉ natToStr n := fun h =>
  absurd (natToStr_all_digits n '\n' h) (by decide)

theorem correctedHeader_noNl (a x b y : Nat) : '\n' ∉ correctedHeader a x b y := by
  rw [correctedHeader]
  simp [nl_not_mem_natToStr]

theorem normGo_noNl : ∀ (ls : List Str) (st : Option (HunkHeader × List Str)),
    (∀ l ∈ ls, '\n' ∉ l) →
    (∀ p, st = some p → ∀ l ∈ p.2, '\n' ∉ l) →
    ∀ l' ∈ normGo st ls, '\n' ∉ l' := by
  intro ls
  induction ls with
  | nil =>
    intro st hls hst l' hl'
    cases st with
    | none => simp [normGo_none_nil] at hl'
    | some p =>
      obtain ⟨hh, acc⟩ := p
      rw [normGo_some_nil, emitHunk] at hl'
      rcases List.mem_cons.mp hl' with h | h
      · rw [h]
        exact correctedHeader_noNl _ _ _ _
      · exact hst (hh, acc) rfl l' h
  | cons l rest ih =>
    intro st hls hst l' hl'
    have hrest : ∀ x ∈ rest, '\n' ∉ x := fun x hx => hls x (by simp [hx])
    have hl : '\n' ∉ l := hls l (by simp)
    have hemp : ∀ p : HunkHeader × List Str, (none : Option (HunkHeader × List Str)) = some p →
        ∀ x ∈ p.2, '\n' ∉ x := by
      intro p hp
      exact absurd hp (by simp)
    have hnil : ∀ (hh2 : HunkHeader) (p : HunkHeader × List Str),
        (some (hh2, ([] : List Str)) : Option (HunkHeader × List Str)) = some p →
        ∀ x ∈ p.2, '\n' ∉ x := by
      intro hh2 p hp
      cases hp
      simp
    cases st with
    | none =>
      by_cases h1 : startsWith hdrOldPrefix l = true ∨ startsWith hdrNewPrefix l = true
      · rw [normGo_none_hdr rest h1] at hl'
        rcases List.mem_cons.mp hl' with h | h
        · rw [h]; exact hl
        · exact ih none hrest hemp l' h
      · push_neg at h1
        obtain ⟨h1a, h1b⟩ := h1
        simp only [ne_eq, Bool.not_eq_true] at h1a h1b
        by_cases h2 : startsWith hunkPrefix l = true
        · cases hp : findHunkHeader l with
          | some hh =>
            rw [normGo_none_hunk_some rest hh h2 hp] at hl'
            exact ih (some (hh, [])) hrest (hnil hh) l' hl'
          | none =>
            rw [normGo_none_hunk_none rest h2 hp] at hl'
            rcases List.mem_cons.mp hl' with h | h
            · rw [h]; exact hl
            · exact ih none hrest hemp l' h
        · rw [Bool.not_eq_true] at h2
          rw [normGo_none_other rest h1a h1b h2] at hl'
          rcases List.mem_cons.mp hl' with h | h
          · rw [h]; exact hl
          · exact ih none hrest hemp l' h
    | some p =>
      obtain ⟨hh, acc⟩ := p
      have hacc : ∀ x ∈ acc, '\n' ∉ x := hst (hh, acc) rfl
      have hemit : ∀ x ∈ emitHunk hh acc, '\n' ∉ x := by
        intro x hx
        rw [emitHunk] at hx
        rcases List.mem_cons.mp hx with h | h
        · rw [h]; exact correctedHeader_noNl _ _ _ _
        · exact hacc x h
      by_cases h2 : startsWith hunkPrefix l = true
      · rw [normGo_some_hunk rest hh acc h2] at hl'
        rcases List.mem_append.mp hl' with h | h
        · exact hemit l' h
        · cases hp : findHunkHeader l with
          | some hh2 =>
            rw [normGo_none_hunk_some rest hh2 h2 hp] at h
            exact ih (some (hh2, [])) hrest (hnil hh2) l' h
          | none =>
            rw [normGo_none_hunk_none rest h2 hp] at h
            rcases List.mem_cons.mp h with h | h
            · rw [h]; exact hl
            · exact ih none hrest hemp l' h
      · rw [Bool.not_eq_true] at h2
        by_cases h3 : isContentLine l = true
        · rw [normGo_some_content rest hh acc h2 h3] at hl'
          refine ih (some (hh, acc ++ [l])) hrest ?_ l' hl'
          intro p hp
          cases hp
          intro x hx
          rcases List.mem_append.mp hx with h | h
          · exact hacc x h
          · simp at h
            rw [h]; exact hl
        · rw [Bool.not_eq_true] at h3
          by_cases h4 : l = []
          · subst h4
            rw [normGo_some_blank rest hh acc] at hl'
            refine ih (some (hh, acc ++ [[' ']])) hrest ?_ l' hl'
            intro p hp
            cases hp
            intro x hx
            rcases List.mem_append.mp hx with h | h
            · exact hacc x h
            · simp at h
              rw [h]; simp
          · rw [normGo_some_break rest hh acc h2 h3 h4] at hl'
            rcases List.mem_append.mp hl' with h | h
            · exact hemit l' h
            · rcases List.mem_cons.mp h with h | h
              · rw [h]; exact hl
              · exact ih none hrest hemp l' h

theorem normGo_none_ne_nil (ls : List Str) (h : ls ≠ []) : normGo none ls ≠ [] := by
  cases ls with
  | nil => exact absurd rfl h
  | cons l rest =>
    by_cases h1 : startsWith hdrOldPrefix l = true ∨ startsWith hdrNewPrefix l = true
    · rw [normGo_none_hdr rest h1]
      simp
    · push_neg at h1
      obtain ⟨h1a, h1b⟩ := h1
      simp only [ne_eq, Bool.not_eq_true] at h1a h1b
      by_cases h2 : startsWith hunkPrefix l = true
      · cases hp : findHunkHeader l with
        | some hh =>
          rw [normGo_none_hunk_some rest hh h2 hp, normGo_inside, emitHunk]
          simp
        | none =>
          rw [normGo_none_hunk_none rest h2 hp]
          simp
      · rw [Bool.not_eq_true] at h2
        rw [normGo_none_other rest h1a h1b h2]
        simp

theorem collectHunk_normGo_rest (rest : List Str) :
    collectHunk (normGo none (collectHunk rest).2) = ([], normGo none (collectHunk rest).2) := by
  rcases collectHunk_rest_shape rest with h | ⟨h0, t0, heq, hprop⟩
  · rw [h, normGo_none_nil, collectHunk]
  · rw [heq]
    by_cases hhp : startsWith hunkPrefix h0 = true
    · cases hph : findHunkHeader h0 with
      | some hh0 =>
        rw [normGo_none_hunk_some t0 hh0 hhp hph, normGo_inside, emitHunk, List.cons_append,
          collectHunk_hunk _ (correctedHeader_starts_hunk _ _ _ _)]
      | none =>
        rw [normGo_none_hunk_none t0 hhp hph, collectHunk_hunk _ hhp]
    · have hbr : isContentLine h0 = false ∧ h0 ≠ [] := by
        rcases hprop with hp | hp
        · exact absurd hp hhp
        · exact hp
      rw [Bool.not_eq_true] at hhp
      rw [normGo_none_other t0 (not_content_not_hdrOld hbr.1) (not_content_not_hdrNew hbr.1) hhp,
        collectHunk_break _ hhp hbr.1 hbr.2]

theorem normGo_none_idem : ∀ (n : Nat) (ls : List Str), ls.length ≤ n →
    normGo none (normGo none ls) = normGo none ls := by
  intro n
  induction n with
  | zero =>
    intro ls hlen
    have : ls = [] := List.length_eq_zero.mp (Nat.le_zero.mp hlen)
    subst this
    simp [normGo_none_nil]
  | succ n ih =>
    intro ls hlen
    cases ls with
    | nil => simp [normGo_none_nil]
    | cons l rest =>
      have hrl : rest.length ≤ n := by
        simp at hlen
        omega
      by_cases h1 : startsWith hdrOldPrefix l = true ∨ startsWith hdrNewPrefix l = true
      · rw [normGo_none_hdr rest h1, normGo_none_hdr _ h1, ih rest hrl]
      · push_neg at h1
        obtain ⟨h1a, h1b⟩ := h1
        simp only [ne_eq, Bool.not_eq_true] at h1a h1b
        by_cases h2 : startsWith hunkPrefix l = true
        · cases hp : findHunkHeader l with
          | none =>
            rw [normGo_none_hunk_none rest h2 hp, normGo_none_hunk_none _ h2 hp, ih rest hrl]
          | some hh =>
            rw [normGo_none_hunk_some rest hh h2 hp, normGo_inside, List.nil_append, emitHunk,
              List.cons_append,
              normGo_none_hunk_some _ _ (correctedHeader_starts_hunk _ _ _ _)
                (findHunkHeader_correctedHeader _ _ _ _),
              normGo_inside,
              collectHunk_append_content (collectHunk rest).1 _ (collectHunk_body_content rest),
              collectHunk_normGo_rest rest]
            have hlen2 : (collectHunk rest).2.length ≤ n :=
              le_trans (collectHunk_len rest) hrl
            rw [List.nil_append, List.append_nil, emitHunk, ih _ hlen2, List.cons_append]
        · rw [Bool.not_eq_true] at h2
          rw [normGo_none_other rest h1a h1b h2, normGo_none_other _ h1a h1b h2, ih rest hrl]

theorem convertLine_hunk {line : Str} (ts : Nat) (h : startsWith hunkPrefix line = true) :
    convertLine ts line = line := by
  rw [convertLine.eq_def, if_pos (by simp [h])]

theorem convertLine_nil (ts : Nat) : convertLine ts [] = [] := by
  rw [convertLine.eq_def, if_neg (by simp [hdrOldPrefix, hdrNewPrefix, hunkPrefix])]

theorem countLeadingSpaces_nil : countLeadingSpaces [] = 0 := by
  simp [countLeadingSpaces]

theorem countLeadingSpaces_tab (t : Str) : countLeadingSpaces ('\t' :: t) = 0 := by
  simp [countLeadingSpaces, List.takeWhile_cons]

theorem convertLine_of_hdr {line : Str} (ts : Nat)
    (h : (startsWith hdrOldPrefix line || startsWith hdrNewPrefix line ||
      startsWith hunkPrefix line) = true) :
    convertLine ts line = line := by
  rw [convertLine.eq_def, if_pos h]

theorem convertLine_cons (ts : Nat) (marker : Char) (content : Str)
    (hh : (startsWith hdrOldPrefix (marker :: content) || startsWith hdrNewPrefix (marker :: content) ||
      startsWith hunkPrefix (marker :: content)) = false) :
    convertLine ts (marker :: content) =
      if marker = ' ' || marker = '+' || marker = '-' then
        if countLeadingSpaces content ≥ ts then
          marker :: (List.replicate (countLeadingSpaces content / ts) '\t' ++
            List.replicate (countLeadingSpaces content % ts) ' ' ++
            content.drop (countLeadingSpaces content))
        else marker :: content
      else marker :: content := by
  rw [convertLine.eq_def, if_neg (by rw [hh]; simp)]

theorem convertLine_space_line {ts : Nat} (hts : 1 ≤ ts) : convertLine ts [' '] = [' '] := by
  rw [convertLine_cons ts ' ' [] (by decide), if_pos (by decide), countLeadingSpaces_nil,
    if_neg (by omega)]

theorem convertLine_idem {ts : Nat} (hts : 1 ≤ ts) (line : Str) :
    convertLine ts (convertLine ts line) = convertLine ts line := by
  by_cases hh : (startsWith hdrOldPrefix line || startsWith hdrNewPrefix line ||
      startsWith hunkPrefix line) = true
  · rw [convertLine_of_hdr ts hh, convertLine_of_hdr ts hh]
  · rw [Bool.not_eq_true] at hh
    rcases line with _ | ⟨marker, content⟩
    · rw [convertLine_nil, convertLine_nil]
    · rw [convertLine_cons ts marker content hh]
      by_cases hm : (marker = ' ' || marker = '+' || marker = '-') = true
      · rw [if_pos hm]
        by_cases hL : countLeadingSpaces content ≥ ts
        · rw [if_pos hL]
          obtain ⟨m, hmrep⟩ : ∃ m, countLeadingSpaces content / ts = m + 1 := by
            refine ⟨countLeadingSpaces content / ts - 1, ?_⟩
            have : 1 ≤ countLeadingSpaces content / ts := (Nat.one_le_div_iff (by omega)).mpr hL
            omega
          obtain ⟨T, hT⟩ : ∃ T,
              List.replicate (countLeadingSpaces content / ts) '\t' ++
                List.replicate (countLeadingSpaces content % ts) ' ' ++
                content.drop (countLeadingSpaces content) = '\t' :: T := by
            refine ⟨List.replicate m '\t' ++
              List.replicate (countLeadingSpaces content % ts) ' ' ++
              content.drop (countLeadingSpaces content), ?_⟩
            rw [hmrep, List.replicate_succ, List.cons_append, List.cons_append]
          rw [hT]
          have hcond : (startsWith hdrOldPrefix (marker :: '\t' :: T) ||
              startsWith hdrNewPrefix (marker :: '\t' :: T) ||
              startsWith hunkPrefix (marker :: '\t' :: T)) = false := by
            simp [hdrOldPrefix, hdrNewPrefix, hunkPrefix]
          rw [convertLine_cons ts marker ('\t' :: T) hcond, if_pos hm, countLeadingSpaces_tab,
            if_neg (by omega)]
        · rw [if_neg hL, convertLine_cons ts marker content hh, if_pos hm, if_neg hL]
      · rw [if_neg hm, convertLine_cons ts marker content hh, if_neg hm]

theorem map_eq_self_of_fixed {f : Str → Str} : ∀ (N : List Str),
    (∀ l ∈ N, f l = l) → N.map f = N := by
  intro N h
  induction N with
  | nil => simp
  | cons x t ih =>
    simp only [List.map_cons]
    rw [h x (by simp), ih (fun y hy => h y (by simp [hy]))]

theorem convertLine_noNl (ts : Nat) (line : Str) (h : '\n' ∉ line) :
    '\n' ∉ convertLine ts line := by
  by_cases hh : (startsWith hdrOldPrefix line || startsWith hdrNewPrefix line ||
      startsWith hunkPrefix line) = true
  · rw [convertLine_of_hdr ts hh]
    exact h
  · rw [Bool.not_eq_true] at hh
    rcases line with _ | ⟨marker, content⟩
    · rw [convertLine_nil]
      exact h
    · rw [convertLine_cons ts marker content hh]
      by_cases hm : (marker = ' ' || marker = '+' || marker = '-') = true
      · rw [if_pos hm]
        by_cases hL : countLeadingSpaces content ≥ ts
        · rw [if_pos hL]
          intro hmem
          rcases List.mem_cons.mp hmem with he | hmem2
          · exact h (List.mem_cons.mpr (Or.inl he))
          · rcases List.mem_append.mp hmem2 with hx | hx
            · rcases List.mem_append.mp hx with hy | hy
              · have := List.eq_of_mem_replicate hy
                simp at this
              · have := List.eq_of_mem_replicate hy
                simp at this
            · exact h (List.mem_cons_of_mem _ (List.mem_of_mem_drop hx))
        · rw [if_neg hL]
          exact h
      · rw [if_neg hm]
        exact h

theorem normGo_preserve (P : Str → Prop)
    (hhdr : ∀ a x b y : Nat, P (correctedHeader a x b y)) (hsp : P [' ']) :
    ∀ (ls : List Str) (st : Option (HunkHeader × List Str)),
    (∀ l ∈ ls, P l) →
    (∀ p, st = some p → ∀ l ∈ p.2, P l) →
    ∀ l' ∈ normGo st ls, P l' := by
  intro ls
  induction ls with
  | nil =>
    intro st hls hst l' hl'
    cases st with
    | none => simp [normGo_none_nil] at hl'
    | some p =>
      obtain ⟨hh, acc⟩ := p
      rw [normGo_some_nil, emitHunk] at hl'
      rcases List.mem_cons.mp hl' with h | h
      · rw [h]
        exact hhdr _ _ _ _
      · exact hst (hh, acc) rfl l' h
  | cons l rest ih =>
    intro st hls hst l' hl'
    have hrest : ∀ x ∈ rest, P x := fun x hx => hls x (by simp [hx])
    have hl : P l := hls l (by simp)
    have hemp : ∀ p : HunkHeader × List Str, (none : Option (HunkHeader × List Str)) = some p →
        ∀ x ∈ p.2, P x := by
      intro p hp
      exact absurd hp (by simp)
    have hnil : ∀ (hh2 : HunkHeader) (p : HunkHeader × List Str),
        (some (hh2, ([] : List Str)) : Option (HunkHeader × List Str)) = some p →
        ∀ x ∈ p.2, P x := by
      intro hh2 p hp
      cases hp
      simp
    cases st with
    | none =>
      by_cases h1 : startsWith hdrOldPrefix l = true ∨ startsWith hdrNewPrefix l = true
      · rw [normGo_none_hdr rest h1] at hl'
        rcases List.mem_cons.mp hl' with h | h
        · rw [h]; exact hl
        · exact ih none hrest hemp l' h
      · push_neg at h1
        obtain ⟨h1a, h1b⟩ := h1
        simp only [ne_eq, Bool.not_eq_true] at h1a h1b
        by_cases h2 : startsWith hunkPrefix l = true
        · cases hp : findHunkHeader l with
          | some hh =>
            rw [normGo_none_hunk_some rest hh h2 hp] at hl'
            exact ih (some (hh, [])) hrest (hnil hh) l' hl'
          | none =>
            rw [normGo_none_hunk_none rest h2 hp] at hl'
            rcases List.mem_cons.mp hl' with h | h
            · rw [h]; exact hl
            · exact ih none hrest hemp l' h
        · rw [Bool.not_eq_true] at h2
          rw [normGo_none_other rest h1a h1b h2] at hl'
          rcases List.mem_cons.mp hl' with h | h
          · rw [h]; exact hl
          · exact ih none hrest hemp l' h
    | some p =>
      obtain ⟨hh, acc⟩ := p
      have hacc : ∀ x ∈ acc, P x := hst (hh, acc) rfl
      have hemit : ∀ x ∈ emitHunk hh acc, P x := by
        intro x hx
        rw [emitHunk] at hx
        rcases List.mem_cons.mp hx with h | h
        · rw [h]; exact hhdr _ _ _ _
        · exact hacc x h
      by_cases h2 : startsWith hunkPrefix l = true
      · rw [normGo_some_hunk rest hh acc h2] at hl'
        rcases List.mem_append.mp hl' with h | h
        · exact hemit l' h
        · cases hp : findHunkHeader l with
          | some hh2 =>
            rw [normGo_none_hunk_some rest hh2 h2 hp] at h
            exact ih (some (hh2, [])) hrest (hnil hh2) l' h
          | none =>
            rw [normGo_none_hunk_none rest h2 hp] at h
            rcases List.mem_cons.mp h with h | h
            · rw [h]; exact hl
            · exact ih none hrest hemp l' h
      · rw [Bool.not_eq_true] at h2
        by_cases h3 : isContentLine l = true
        · rw [normGo_some_content rest hh acc h2 h3] at hl'
          refine ih (some (hh, acc ++ [l])) hrest ?_ l' hl'
          intro p hp
          cases hp
          intro x hx
          rcases List.mem_append.mp hx with h | h
          · exact hacc x h
          · simp at h
            rw [h]; exact hl
        · rw [Bool.not_eq_true] at h3
          by_cases h4 : l = []
          · subst h4
            rw [normGo_some_blank rest hh acc] at hl'
            refine ih (some (hh, acc ++ [[' ']])) hrest ?_ l' hl'
            intro p hp
            cases hp
            intro x hx
            rcases List.mem_append.mp hx with h | h
            · exact hacc x h
            · simp at h
              rw [h]; exact hsp
          · rw [normGo_some_break rest hh acc h2 h3 h4] at hl'
            rcases List.mem_append.mp hl' with h | h
            · exact hemit l' h
            · rcases List.mem_cons.mp h with h | h
              · rw [h]; exact hl
              · exact ih none hrest hemp l' h

theorem detectIndentation_tabSize_ge2 (c : Str) : 2 ≤ (detectIndentation c).tabSize := by
  rw [detectIndentation]
  simp only
  cases hsr : spaceRunLengths c with
  | nil => simp
  | cons a t =>
    simp only
    split
    · rename_i hg
      exact hg.1
    · exact le_refl 2

theorem splitNl_normalizeDiff (ctfp : Str → Str → Str) (d c : Str) :
    splitNl (normalizeDiff ctfp d c) = normGo none (splitNl (tabFixedDiff ctfp d c)) := by
  rw [normalizeDiff, normalizeLines]
  apply splitNl_joinNl
  · exact normGo_none_ne_nil _ (splitNl_ne_nil _)
  · exact normGo_noNl _ none (fun l hl => noNl_of_mem_splitNl _ l hl)
      (fun p hp => absurd hp (by simp))

theorem normalizeDiff_idem_helper (ctfp : Str → Str → Str) (d c : Str)
    (h : isFullFileDiff (normalizeDiff ctfp d c) c = false) :
    normalizeDiff ctfp (normalizeDiff ctfp d c) c = normalizeDiff ctfp d c := by
  have hreg : regeneratedDiff ctfp (normalizeDiff ctfp d c) c = normalizeDiff ctfp d c := by
    rw [regeneratedDiff, if_neg (by simp [h])]
  have hsplitE := splitNl_normalizeDiff ctfp d c
  by_cases hut : (detectIndentation c).useTabs = true
  · have hts2 := detectIndentation_tabSize_ge2 c
    have hF : tabFixedDiff ctfp d c =
        convertSpacesToTabs (regeneratedDiff ctfp d c) (detectIndentation c).tabSize := by
      rw [tabFixedDiff]
      simp [hut]
    have hls0 : splitNl (tabFixedDiff ctfp d c) =
        (splitNl (regeneratedDiff ctfp d c)).map (convertLine (detectIndentation c).tabSize) := by
      rw [hF, convertSpacesToTabs]
      apply splitNl_joinNl
      · intro hcon
        rw [List.map_eq_nil_iff] at hcon
        exact splitNl_ne_nil _ hcon
      · intro l hl
        rw [List.mem_map] at hl
        obtain ⟨x, hx, rfl⟩ := hl
        exact convertLine_noNl _ x (noNl_of_mem_splitNl _ x hx)
    have hfix0 : ∀ l ∈ splitNl (tabFixedDiff ctfp d c),
        convertLine (detectIndentation c).tabSize l = l := by
      rw [hls0]
      intro l hl
      rw [List.mem_map] at hl
      obtain ⟨x, hx, rfl⟩ := hl
      exact convertLine_idem (by omega) x
    have hfixM : ∀ l ∈ normGo none (splitNl (tabFixedDiff ctfp d c)),
        convertLine (detectIndentation c).tabSize l = l :=
      normGo_preserve (fun l => convertLine (detectIndentation c).tabSize l = l)
        (fun a x b y => convertLine_hunk _ (correctedHeader_starts_hunk a x b y))
        (convertLine_space_line (by omega))
        _ none hfix0 (fun p hp => absurd hp (by simp))
    have hconvE : convertSpacesToTabs (normalizeDiff ctfp d c) (detectIndentation c).tabSize =
        normalizeDiff ctfp d c := by
      rw [convertSpacesToTabs, hsplitE, map_eq_self_of_fixed _ hfixM, normalizeDiff,
        normalizeLines]
    have htf : tabFixedDiff ctfp (normalizeDiff ctfp d c) c = normalizeDiff ctfp d c := by
      rw [tabFixedDiff]
      simp [hut, hreg, hconvE]
    conv_lhs => rw [normalizeDiff, htf, hsplitE]
    rw [normalizeLines, normGo_none_idem (splitNl (tabFixedDiff ctfp d c)).length _ (le_refl _),
      normalizeDiff, normalizeLines]
  · rw [Bool.not_eq_true] at hut
    have htf : tabFixedDiff ctfp (normalizeDiff ctfp d c) c = normalizeDiff ctfp d c := by
      rw [tabFixedDiff]
      simp [hut, hreg]
    conv_lhs => rw [normalizeDiff, htf, hsplitE]
    rw [normalizeLines, normGo_none_idem (splitNl (tabFixedDiff ctfp d c)).length _ (le_refl _),
      normalizeDiff, normalizeLines]

theorem jsGcdAux_eq (f : Nat) : ∀ (a b : Nat), b < f → jsGcdAux f a b = Nat.gcd a b := by
  induction f with
  | zero =>
    intro a b h
    omega
  | succ f ih =>
    intro a b h
    rw [jsGcdAux]
    by_cases hb : b = 0
    · simp [hb]
    · rw [if_neg hb, ih b (a % b) (by
        have := Nat.mod_lt a (show 0 < b by omega)
        omega)]
      rw [Nat.gcd_comm b (a % b), ← Nat.gcd_rec, Nat.gcd_comm]

theorem jsGcd_eq (a b : Nat) : jsGcd a b = Nat.gcd a b :=
  jsGcdAux_eq (b + 1) a b (by omega)

theorem foldl_jsGcd (t : List Nat) : ∀ a, t.foldl jsGcd a = Nat.gcd a (t.foldr Nat.gcd 0) := by
  induction t with
  | nil =>
    intro a
    simp
  | cons b t ih =>
    intro a
    rw [List.foldl_cons, ih, jsGcd_eq, List.foldr_cons, Nat.gcd_assoc]

theorem ne_append_of_ne_nil (s t : Str) (h : t ≠ []) : s ≠ s ++ t := by
  intro hcon
  have hl := congrArg List.length hcon
  rw [List.length_append] at hl
  exact h (List.length_eq_zero.mp (by omega))

theorem backupPathOf_ne (abs : Str) : abs ≠ backupPathOf abs :=
  ne_append_of_ne_nil abs (toL ".backup") (by decide)

theorem apwf_s1 (apf : Str → Str → JsApplyOutcome) (pcf : Str → Str → Option Str)
    (ctfp : Str → Str → Str) (c d : Str) (p : Option Str) (r : Str)
    (h1 : apf c d = .ok r) :
    applyPatchWithFallback apf pcf ctfp c d p =
      ({ success := true, content := some r, error := none }, [.original]) := by
  rw [applyPatchWithFallback.eq_def, h1]

theorem apwf_s2 (apf : Str → Str → JsApplyOutcome) (pcf : Str → Str → Option Str)
    (ctfp : Str → Str → Str) (c d : Str) (p : Option Str) (r : Str)
    (h1 : apf c d = .retFalse ∨ apf c d = .threw)
    (h2 : apf c (normalizeDiff ctfp d c) = .ok r) :
    applyPatchWithFallback apf pcf ctfp c d p =
      ({ success := true, content := some r, error := none }, [.original, .fixed]) := by
  rcases h1 with h1 | h1 <;>
  · rw [applyPatchWithFallback.eq_def]
    simp only [h1, h2]

theorem apwf_fail (apf : Str → Str → JsApplyOutcome) (pcf : Str → Str → Option Str)
    (ctfp : Str → Str → Str) (c d : Str) (p : Option Str)
    (h1 : apf c d = .retFalse ∨ apf c d = .threw)
    (h2 : apf c (normalizeDiff ctfp d c) = .retFalse ∨
      apf c (normalizeDiff ctfp d c) = .threw)
    (h3 : ∀ fp, p = some fp → pcf c (normalizeDiff ctfp d c) = none) :
    (applyPatchWithFallback apf pcf ctfp c d p).1 =
      { success := false, content := none, error := some patchRejectedMsg } ∧
    ((applyPatchWithFallback apf pcf ctfp c d p).2 = [.original, .fixed] ∨
      (applyPatchWithFallback apf pcf ctfp c d p).2 = [.original, .fixed, .patchCmd]) := by
  rcases h1 with h1 | h1 <;> rcases h2 with h2 | h2 <;>
  · rw [applyPatchWithFallback.eq_def]
    simp only [h1, h2]
    cases p with
    | none => simp
    | some fp =>
      by_cases hfp : fp = []
      · simp [hfp]
      · simp [hfp, h3 fp rfl]

theorem applyPatches_cons (apf : Str → Str → JsApplyOutcome) (pcf : Str → Str → Option Str)
    (ctfp : Str → Str → Str) (root : Str) (fs : Fs) (m : FileModification)
    (ms : List FileModification) :
    applyPatches apf pcf ctfp root fs (m :: ms) =
      ((applyPatches apf pcf ctfp root (applyPatchesStep apf pcf ctfp root fs m).1 ms).1,
        (applyPatchesStep apf pcf ctfp root fs m).2.1 ::
          (applyPatches apf pcf ctfp root (applyPatchesStep apf pcf ctfp root fs m).1 ms).2) :=
  rfl

theorem applyPatchesStep_missing (apf : Str → Str → JsApplyOutcome)
    (pcf : Str → Str → Option Str) (ctfp : Str → Str → Str) (root : Str) (fs : Fs)
    (m : FileModification) (h : fs (joinPath root (normalizePath m.path)) = none) :
    applyPatchesStep apf pcf ctfp root fs m =
      (fs, { file := normalizePath m.path, success := false, error := some missingFileMsg },
        false) := by
  rw [applyPatchesStep]
  simp only [h]

theorem applyPatchesStep_fail (apf : Str → Str → JsApplyOutcome)
    (pcf : Str → Str → Option Str) (ctfp : Str → Str → Str) (root : Str) (fs : Fs)
    (m : FileModification) (orig : Str)
    (horig : fs (joinPath root (normalizePath m.path)) = some orig)
    (e : Option Str)
    (hpr : (applyPatchWithFallback apf pcf ctfp orig m.diff
        (some (joinPath root (normalizePath m.path)))).1 =
      { success := false, content := none, error := e }) :
    applyPatchesStep apf pcf ctfp root fs m =
      (fsWrite fs (backupPathOf (joinPath root (normalizePath m.path))) (some orig),
        { file := normalizePath m.path, success := false,
          error := some (jsOrDefault e patchFailedMsg) }, true) := by
  rw [applyPatchesStep]
  simp only [horig, hpr]

theorem applyPatchesStep_success (apf : Str → Str → JsApplyOutcome)
    (pcf : Str → Str → Option Str) (ctfp : Str → Str → Str) (root : Str) (fs : Fs)
    (m : FileModification) (orig cont : Str) (e : Option Str)
    (horig : fs (joinPath root (normalizePath m.path)) = some orig)
    (hpr : (applyPatchWithFallback apf pcf ctfp orig m.diff
        (some (joinPath root (normalizePath m.path)))).1 =
      { success := true, content := some cont, error := e })
    (hne : cont ≠ []) :
    applyPatchesStep apf pcf ctfp root fs m =
      (fsWrite
          (fsWrite (fsWrite fs (backupPathOf (joinPath root (normalizePath m.path))) (some orig))
            (joinPath root (normalizePath m.path)) (some cont))
          (backupPathOf (joinPath root (normalizePath m.path))) none,
        { file := normalizePath m.path, success := true, error := none }, true) := by
  rw [applyPatchesStep]
  simp only [horig, hpr]
  rw [if_neg hne]

theorem applyPatchesStep_empty_content (apf : Str → Str → JsApplyOutcome)
    (pcf : Str → Str → Option Str) (ctfp : Str → Str → Str) (root : Str) (fs : Fs)
    (m : FileModification) (orig : Str) (e : Option Str)
    (horig : fs (joinPath root (normalizePath m.path)) = some orig)
    (hpr : (applyPatchWithFallback apf pcf ctfp orig m.diff
        (some (joinPath root (normalizePath m.path)))).1 =
      { success := true, content := some [], error := e }) :
    applyPatchesStep apf pcf ctfp root fs m =
      (fsWrite fs (backupPathOf (joinPath root (normalizePath m.path))) (some orig),
        { file := normalizePath m.path, success := false,
          error := some (jsOrDefault e patchFailedMsg) }, true) := by
  rw [applyPatchesStep]
  simp only [horig, hpr]
  simp

/-- C1: for every input diff and original content, each hunk that
`normalizeDiff` emits has a rewritten header
`@@ -oldStart,oldCount +newStart,newCount @@` in which `oldCount` is the
number of collected hunk content lines starting with a space or a minus and
`newCount` the number starting with a space or a plus, regardless of the
counts declared in the input header (the parsed declared counts
`hh.oldCount`, `hh.newCount` do not occur in the result); the start numbers
are taken unchanged from the parsed input header.  The first conjunct ties
`normalizeDiff` to the header-correction pass `normalizeLines`; the second
characterizes that pass on any parseable hunk header. -/
theorem normalizeDiff_hunk_header_recount
    (ctfp : Str → Str → Str) (d c : Str) (l : Str) (rest : List Str) (hh : HunkHeader)
    (ha : startsWith hunkPrefix l = true) (hp : findHunkHeader l = some hh) :
    normalizeDiff ctfp d c = joinNl (normalizeLines (splitNl (tabFixedDiff ctfp d c))) ∧
    normalizeLines (l :: rest) =
      correctedHeader hh.oldStart (countOldLines (collectHunk rest).1)
          hh.newStart (countNewLines (collectHunk rest).1)
        :: (collectHunk rest).1 ++ normalizeLines (collectHunk rest).2 :=
  ⟨rfl, normalizeLines_hunk rest hh ha hp⟩

/-- Witness for C1 at a concrete hunk whose declared counts (99 and 0) are
wrong: the header is rewritten to the recounted `@@ -3,2 +7,2 @@`. -/
theorem normalizeDiff_hunk_header_recount_witness :
    startsWith hunkPrefix (toL "@@ -3,99 +7,0 @@") = true ∧
    findHunkHeader (toL "@@ -3,99 +7,0 @@") = some ⟨3, some 99, 7, some 0⟩ ∧
    normalizeLines (toL "@@ -3,99 +7,0 @@" :: [toL " a", toL "+b", toL "-c"]) =
      [toL "@@ -3,2 +7,2 @@", toL " a", toL "+b", toL "-c"] :=
  ⟨by decide, by decide, by
    rw [(normalizeDiff_hunk_header_recount (fun _ _ => []) (toL "x") (toL "y")
      (toL "@@ -3,99 +7,0 @@") [toL " a", toL "+b", toL "-c"] ⟨3, some 99, 7, some 0⟩
      (by decide) (by decide)).2]
    decide⟩

/-- C2: if strategy 1 fails (the external `applyPatch` returns `false` or
throws) and strategy 2 (`applyPatch` on `normalizeDiff diff originalContent`)
succeeds with `r`, then `applyPatchWithFallback` returns success with the
strategy-2 result, and the recorded attempt trace is exactly
`[original, fixed]`: the strategies ran in order 1, 2 and strategy 3 was
never invoked (no temp directory, no subprocess). -/
theorem applyPatchWithFallback_strategy2_success
    (apf : Str → Str → JsApplyOutcome) (pcf : Str → Str → Option Str)
    (ctfp : Str → Str → Str) (c d : Str) (p : Option Str) (r : Str)
    (h1 : apf c d = .retFalse ∨ apf c d = .threw)
    (h2 : apf c (normalizeDiff ctfp d c) = .ok r) :
    applyPatchWithFallback apf pcf ctfp c d p =
      ({ success := true, content := some r, error := none }, [.original, .fixed]) :=
  apwf_s2 apf pcf ctfp c d p r h1 h2

/-- Witness for C2 with a diff whose declared counts are wrong, rejected as
given but accepted after normalization. -/
theorem applyPatchWithFallback_strategy2_success_witness :
    ((fun (_ : Str) (d2 : Str) =>
        if d2 = toL "@@ -1,5 +1,5 @@\n x" then JsApplyOutcome.retFalse
        else JsApplyOutcome.ok (toL "patched")) (toL "x\ny\nz\nw\nv")
        (toL "@@ -1,5 +1,5 @@\n x") = .retFalse ∨
      (fun (_ : Str) (d2 : Str) =>
        if d2 = toL "@@ -1,5 +1,5 @@\n x" then JsApplyOutcome.retFalse
        else JsApplyOutcome.ok (toL "patched")) (toL "x\ny\nz\nw\nv")
        (toL "@@ -1,5 +1,5 @@\n x") = .threw) ∧
    applyPatchWithFallback
      (fun (_ : Str) (d2 : Str) =>
        if d2 = toL "@@ -1,5 +1,5 @@\n x" then JsApplyOutcome.retFalse
        else JsApplyOutcome.ok (toL "patched"))
      (fun _ _ => none) (fun _ _ => []) (toL "x\ny\nz\nw\nv")
      (toL "@@ -1,5 +1,5 @@\n x") (some (toL "/f")) =
      ({ success := true, content := some (toL "patched"), error := none },
        [.original, .fixed]) :=
  ⟨Or.inl (by decide),
    applyPatchWithFallback_strategy2_success _ _ _ _ _ _ _ (Or.inl (by decide)) (by decide)⟩

/-- C3: `applyPatchWithFallback` never throws — the embedding is a total
function into structured results — and whenever every applicable strategy
fails (strategy 3 is applicable only when `filePath` is provided, and a
failure of the external `applyPatch` covers both a `false` return and a
thrown exception, so an exception in one strategy does not prevent the later
ones, which the attempt trace records) it returns exactly
`{ success := false, error := "Patch rejected - unable to apply with any strategy" }`
with no content. -/
theorem applyPatchWithFallback_structured_failure
    (apf : Str → Str → JsApplyOutcome) (pcf : Str → Str → Option Str)
    (ctfp : Str → Str → Str) (c d : Str) (p : Option Str)
    (h1 : apf c d = .retFalse ∨ apf c d = .threw)
    (h2 : apf c (normalizeDiff ctfp d c) = .retFalse ∨
      apf c (normalizeDiff ctfp d c) = .threw)
    (h3 : ∀ fp, p = some fp → pcf c (normalizeDiff ctfp d c) = none) :
    (applyPatchWithFallback apf pcf ctfp c d p).1 =
      { success := false, content := none, error := some patchRejectedMsg } ∧
    ((applyPatchWithFallback apf pcf ctfp c d p).2 = [.original, .fixed] ∨
      (applyPatchWithFallback apf pcf ctfp c d p).2 = [.original, .fixed, .patchCmd]) :=
  apwf_fail apf pcf ctfp c d p h1 h2 h3

/-- Witness for C3 where strategy 1 and 2 both throw and the subprocess of
strategy 3 fails: all three strategies were attempted and the structured
rejection is returned. -/
theorem applyPatchWithFallback_structured_failure_witness :
    (applyPatchWithFallback (fun _ _ => JsApplyOutcome.threw) (fun _ _ => none)
        (fun _ _ => []) (toL "x") (toL "bad") (some (toL "/f"))).1 =
      { success := false, content := none, error := some patchRejectedMsg } ∧
    ((applyPatchWithFallback (fun _ _ => JsApplyOutcome.threw) (fun _ _ => none)
        (fun _ _ => []) (toL "x") (toL "bad") (some (toL "/f"))).2 = [.original, .fixed] ∨
      (applyPatchWithFallback (fun _ _ => JsApplyOutcome.threw) (fun _ _ => none)
        (fun _ _ => []) (toL "x") (toL "bad") (some (toL "/f"))).2 =
        [.original, .fixed, .patchCmd]) :=
  applyPatchWithFallback_structured_failure _ _ _ _ _ _ (Or.inr rfl) (Or.inr rfl)
    (fun _ _ => rfl)

/-- C4 counterexample, two independent divergences from the claim.
First, the code counts every line of the diff starting with a space, a plus
or a minus — including the `--- a/f` and `+++ b/f` file header lines — not
only the hunk's content lines: with a single hunk of exactly 7 content
lines against a 10-line original the claim predicts `false` (7 does not
exceed 70 percent of 10, under the float test either), but the two header
lines bring the counted total to 9 and the code returns `true`.  Second,
the comparison is IEEE binary64, not exact arithmetic: with a single hunk
of 63 content lines (and no file header lines) against a 90-line original,
63 does not strictly exceed the exact 0.7 · 90 = 63, yet
`90 * 0.7 = 62.99999999999999289` in doubles and the code returns `true`. -/
theorem isFullFileDiff_counts_file_headers_counterexample :
    isFullFileDiff (toL "--- a/f\n+++ b/f\n@@ -1,7 +1,7 @@\n a\n b\n c\n d\n e\n f\n g")
      (toL "a\nb\nc\nd\ne\nf\ng\nh\ni\nj") = true ∧
    hunkHeaderCount (toL "--- a/f\n+++ b/f\n@@ -1,7 +1,7 @@\n a\n b\n c\n d\n e\n f\n g") = 1 ∧
    claimHunkContentCount
      (toL "--- a/f\n+++ b/f\n@@ -1,7 +1,7 @@\n a\n b\n c\n d\n e\n f\n g") = 7 ∧
    originalLineCount (toL "a\nb\nc\nd\ne\nf\ng\nh\ni\nj") = 10 ∧
    ¬(10 * claimHunkContentCount
        (toL "--- a/f\n+++ b/f\n@@ -1,7 +1,7 @@\n a\n b\n c\n d\n e\n f\n g") >
      7 * originalLineCount (toL "a\nb\nc\nd\ne\nf\ng\nh\ni\nj")) ∧
    jsGtTimes07
      (claimHunkContentCount
        (toL "--- a/f\n+++ b/f\n@@ -1,7 +1,7 @@\n a\n b\n c\n d\n e\n f\n g"))
      (originalLineCount (toL "a\nb\nc\nd\ne\nf\ng\nh\ni\nj")) = false ∧
    isFullFileDiff
      (toL "@@ -1,63 +1,63 @@\n a\n a\n a\n a\n a\n a\n a\n a\n a\n a\n a\n a\n a\n a\n a\n a\n a\n a\n a\n a\n a\n a\n a\n a\n a\n a\n a\n a\n a\n a\n a\n a\n a\n a\n a\n a\n a\n a\n a\n a\n a\n a\n a\n a\n a\n a\n a\n a\n a\n a\n a\n a\n a\n a\n a\n a\n a\n a\n a\n a\n a\n a\n a")
      (toL "x\nx\nx\nx\nx\nx\nx\nx\nx\nx\nx\nx\nx\nx\nx\nx\nx\nx\nx\nx\nx\nx\nx\nx\nx\nx\nx\nx\nx\nx\nx\nx\nx\nx\nx\nx\nx\nx\nx\nx\nx\nx\nx\nx\nx\nx\nx\nx\nx\nx\nx\nx\nx\nx\nx\nx\nx\nx\nx\nx\nx\nx\nx\nx\nx\nx\nx\nx\nx\nx\nx\nx\nx\nx\nx\nx\nx\nx\nx\nx\nx\nx\nx\nx\nx\nx\nx\nx\nx\nx") = true ∧
    hunkHeaderCount
      (toL "@@ -1,63 +1,63 @@\n a\n a\n a\n a\n a\n a\n a\n a\n a\n a\n a\n a\n a\n a\n a\n a\n a\n a\n a\n a\n a\n a\n a\n a\n a\n a\n a\n a\n a\n a\n a\n a\n a\n a\n a\n a\n a\n a\n a\n a\n a\n a\n a\n a\n a\n a\n a\n a\n a\n a\n a\n a\n a\n a\n a\n a\n a\n a\n a\n a\n a\n a\n a") = 1 ∧
    claimHunkContentCount
      (toL "@@ -1,63 +1,63 @@\n a\n a\n a\n a\n a\n a\n a\n a\n a\n a\n a\n a\n a\n a\n a\n a\n a\n a\n a\n a\n a\n a\n a\n a\n a\n a\n a\n a\n a\n a\n a\n a\n a\n a\n a\n a\n a\n a\n a\n a\n a\n a\n a\n a\n a\n a\n a\n a\n a\n a\n a\n a\n a\n a\n a\n a\n a\n a\n a\n a\n a\n a\n a") = 63 ∧
    prefixedLineCount
      (toL "@@ -1,63 +1,63 @@\n a\n a\n a\n a\n a\n a\n a\n a\n a\n a\n a\n a\n a\n a\n a\n a\n a\n a\n a\n a\n a\n a\n a\n a\n a\n a\n a\n a\n a\n a\n a\n a\n a\n a\n a\n a\n a\n a\n a\n a\n a\n a\n a\n a\n a\n a\n a\n a\n a\n a\n a\n a\n a\n a\n a\n a\n a\n a\n a\n a\n a\n a\n a") = 63 ∧
    originalLineCount
      (toL "x\nx\nx\nx\nx\nx\nx\nx\nx\nx\nx\nx\nx\nx\nx\nx\nx\nx\nx\nx\nx\nx\nx\nx\nx\nx\nx\nx\nx\nx\nx\nx\nx\nx\nx\nx\nx\nx\nx\nx\nx\nx\nx\nx\nx\nx\nx\nx\nx\nx\nx\nx\nx\nx\nx\nx\nx\nx\nx\nx\nx\nx\nx\nx\nx\nx\nx\nx\nx\nx\nx\nx\nx\nx\nx\nx\nx\nx\nx\nx\nx\nx\nx\nx\nx\nx\nx\nx\nx\nx") = 90 ∧
    ¬(10 * 63 > 7 * 90) := by
  decide

/-- C4 amended: `isFullFileDiff diff originalContent` returns true iff the
diff contains exactly one hunk header and the number of lines anywhere in
the diff prefixed with a space, a plus or a minus — which includes the
`---` and `+++` file header lines — exceeds 0.7 times the original
content's line count under the JavaScript IEEE binary64 comparison
`count > originalLineCount * 0.7` (`jsGtTimes07`), which differs from the
exact comparison at round-off boundaries such as 63 lines against a
90-line original. -/
theorem isFullFileDiff_threshold_amended (d c : Str) :
    isFullFileDiff d c = true ↔
      hunkHeaderCount d = 1 ∧
      jsGtTimes07 (prefixedLineCount d) (originalLineCount c) = true := by
  by_cases hcnt : ((splitNl d).filter (fun l => startsWith hunkPrefix l)).length = 1
  · simp [isFullFileDiff, hunkHeaderCount, prefixedLineCount, originalLineCount, hcnt]
  · simp [isFullFileDiff, hunkHeaderCount, prefixedLineCount, originalLineCount, hcnt]

/-- C5: for a modification whose existing target file fails all patch
strategies, `applyPatches` leaves the target's content unchanged, leaves a
`.backup` sibling on disk whose content equals the pre-patch original,
records a failure result for that file, and continues with the remaining
modifications (last conjunct: the loop recurses on the rest of the batch). -/
theorem applyPatches_failure_preserves_backup
    (apf : Str → Str → JsApplyOutcome) (pcf : Str → Str → Option Str)
    (ctfp : Str → Str → Str) (root : Str) (fs : Fs) (m : FileModification)
    (ms : List FileModification) (orig : Str)
    (horig : fs (joinPath root (normalizePath m.path)) = some orig)
    (h1 : apf orig m.diff = .retFalse ∨ apf orig m.diff = .threw)
    (h2 : apf orig (normalizeDiff ctfp m.diff orig) = .retFalse ∨
      apf orig (normalizeDiff ctfp m.diff orig) = .threw)
    (h3 : pcf orig (normalizeDiff ctfp m.diff orig) = none) :
    (applyPatchesStep apf pcf ctfp root fs m).1 (joinPath root (normalizePath m.path)) =
      some orig ∧
    (applyPatchesStep apf pcf ctfp root fs m).1
      (backupPathOf (joinPath root (normalizePath m.path))) = some orig ∧
    (∀ q, q ≠ backupPathOf (joinPath root (normalizePath m.path)) →
      (applyPatchesStep apf pcf ctfp root fs m).1 q = fs q) ∧
    (applyPatchesStep apf pcf ctfp root fs m).2.1 =
      { file := normalizePath m.path, success := false, error := some patchRejectedMsg } ∧
    applyPatches apf pcf ctfp root fs (m :: ms) =
      ((applyPatches apf pcf ctfp root (applyPatchesStep apf pcf ctfp root fs m).1 ms).1,
        (applyPatchesStep apf pcf ctfp root fs m).2.1 ::
          (applyPatches apf pcf ctfp root (applyPatchesStep apf pcf ctfp root fs m).1 ms).2) := by
  have hfall := (apwf_fail apf pcf ctfp orig m.diff
    (some (joinPath root (normalizePath m.path))) h1 h2
    (fun fp hfp => by cases hfp; exact h3)).1
  have hstep := applyPatchesStep_fail apf pcf ctfp root fs m orig horig
    (some patchRejectedMsg) hfall
  have hmsg : jsOrDefault (some patchRejectedMsg) patchFailedMsg = patchRejectedMsg := by
    decide
  refine ⟨?_, ?_, ?_, ?_, applyPatches_cons apf pcf ctfp root fs m ms⟩
  · rw [hstep]
    simp [fsWrite, backupPathOf_ne (joinPath root (normalizePath m.path)), horig]
  · rw [hstep]
    simp [fsWrite]
  · intro q hq
    rw [hstep]
    simp [fsWrite, hq]
  · rw [hstep]
    simp [hmsg]

/-- Witness for C5: a single failing modification against a one-file
filesystem; the target keeps its content, the backup holds the original, a
sibling path is untouched, and the failure is recorded. -/
theorem applyPatches_failure_preserves_backup_witness :
    ((fun q => if q = toL "repo/src/a.ts" then some (toL "line1\nline2") else none) :
      Fs) (joinPath (toL "repo") (normalizePath (toL "src\\a.ts"))) =
      some (toL "line1\nline2") ∧
    (applyPatchesStep (fun _ _ => JsApplyOutcome.retFalse) (fun _ _ => none)
      (fun _ _ => []) (toL "repo")
      (fun q => if q = toL "repo/src/a.ts" then some (toL "line1\nline2") else none)
      ⟨toL "src\\a.ts", toL "bad"⟩).1
      (joinPath (toL "repo") (normalizePath (toL "src\\a.ts"))) =
      some (toL "line1\nline2") ∧
    (applyPatchesStep (fun _ _ => JsApplyOutcome.retFalse) (fun _ _ => none)
      (fun _ _ => []) (toL "repo")
      (fun q => if q = toL "repo/src/a.ts" then some (toL "line1\nline2") else none)
      ⟨toL "src\\a.ts", toL "bad"⟩).1
      (backupPathOf (joinPath (toL "repo") (normalizePath (toL "src\\a.ts")))) =
      some (toL "line1\nline2") ∧
    (applyPatchesStep (fun _ _ => JsApplyOutcome.retFalse) (fun _ _ => none)
      (fun _ _ => []) (toL "repo")
      (fun q => if q = toL "repo/src/a.ts" then some (toL "line1\nline2") else none)
      ⟨toL "src\\a.ts", toL "bad"⟩).2.1 =
      { file := normalizePath (toL "src\\a.ts"), success := false,
        error := some patchRejectedMsg } := by
  refine ⟨by decide, ?_, ?_, ?_⟩
  · exact (applyPatches_failure_preserves_backup _ _ _ _ _ _ [] (toL "line1\nline2") (by decide)
      (Or.inl rfl) (Or.inl rfl) rfl).1
  · exact (applyPatches_failure_preserves_backup _ _ _ _ _ _ [] (toL "line1\nline2") (by decide)
      (Or.inl rfl) (Or.inl rfl) rfl).2.1
  · exact (applyPatches_failure_preserves_backup _ _ _ _ _ _ [] (toL "line1\nline2") (by decide)
      (Or.inl rfl) (Or.inl rfl) rfl).2.2.2.1

/-- C6 counterexample: the loop tests JavaScript truthiness of the content
(`!patchResult.success || !patchResult.content`), so an applicator call that
returns success with the empty string as content — as `applyPatch` does when
a patch empties the file — is treated as a failure: the target file is not
overwritten, the `.backup` sibling remains on disk, and a failure result is
recorded, contradicting the claim for this successful call. -/
theorem applyPatches_empty_content_counterexample :
    (applyPatchWithFallback (fun _ _ => JsApplyOutcome.ok []) (fun _ _ => none)
        (fun _ _ => []) (toL "old content") (toL "d")
        (some (toL "repo/src/a.ts"))).1.success = true ∧
    (applyPatches (fun _ _ => JsApplyOutcome.ok []) (fun _ _ => none) (fun _ _ => [])
        (toL "repo")
        (fun q => if q = toL "repo/src/a.ts" then some (toL "old content") else none)
        [⟨toL "src/a.ts", toL "d"⟩]).2 =
      [{ file := toL "src/a.ts", success := false, error := some patchFailedMsg }] ∧
    (applyPatches (fun _ _ => JsApplyOutcome.ok []) (fun _ _ => none) (fun _ _ => [])
        (toL "repo")
        (fun q => if q = toL "repo/src/a.ts" then some (toL "old content") else none)
        [⟨toL "src/a.ts", toL "d"⟩]).1 (toL "repo/src/a.ts") = some (toL "old content") ∧
    (applyPatches (fun _ _ => JsApplyOutcome.ok []) (fun _ _ => none) (fun _ _ => [])
        (toL "repo")
        (fun q => if q = toL "repo/src/a.ts" then some (toL "old content") else none)
        [⟨toL "src/a.ts", toL "d"⟩]).1 (toL "repo/src/a.ts.backup") =
      some (toL "old content") := by
  decide

/-- C6 amended: for a modification whose applicator call returns success
with a non-empty content string, `applyPatches` overwrites the target with
that content, deletes the `.backup` sibling, leaves every other path
untouched, records a success result, and continues with the remaining
modifications. -/
theorem applyPatches_success_overwrites_amended
    (apf : Str → Str → JsApplyOutcome) (pcf : Str → Str → Option Str)
    (ctfp : Str → Str → Str) (root : Str) (fs : Fs) (m : FileModification)
    (ms : List FileModification) (orig cont : Str) (e : Option Str)
    (horig : fs (joinPath root (normalizePath m.path)) = some orig)
    (hpr : (applyPatchWithFallback apf pcf ctfp orig m.diff
        (some (joinPath root (normalizePath m.path)))).1 =
      { success := true, content := some cont, error := e })
    (hne : cont ≠ []) :
    (applyPatchesStep apf pcf ctfp root fs m).1 (joinPath root (normalizePath m.path)) =
      some cont ∧
    (applyPatchesStep apf pcf ctfp root fs m).1
      (backupPathOf (joinPath root (normalizePath m.path))) = none ∧
    (∀ q, q ≠ joinPath root (normalizePath m.path) →
      q ≠ backupPathOf (joinPath root (normalizePath m.path)) →
      (applyPatchesStep apf pcf ctfp root fs m).1 q = fs q) ∧
    (applyPatchesStep apf pcf ctfp root fs m).2.1 =
      { file := normalizePath m.path, success := true, error := none } ∧
    applyPatches apf pcf ctfp root fs (m :: ms) =
      ((applyPatches apf pcf ctfp root (applyPatchesStep apf pcf ctfp root fs m).1 ms).1,
        (applyPatchesStep apf pcf ctfp root fs m).2.1 ::
          (applyPatches apf pcf ctfp root (applyPatchesStep apf pcf ctfp root fs m).1 ms).2) := by
  have hstep := applyPatchesStep_success apf pcf ctfp root fs m orig cont e horig hpr hne
  refine ⟨?_, ?_, ?_, ?_, applyPatches_cons apf pcf ctfp root fs m ms⟩
  · rw [hstep]
    simp [fsWrite, backupPathOf_ne (joinPath root (normalizePath m.path))]
  · rw [hstep]
    simp [fsWrite]
  · intro q hq1 hq2
    rw [hstep]
    simp [fsWrite, hq1, hq2]
  · rw [hstep]

/-- Witness for C6 amended: a successful one-file run overwrites the target,
removes the backup, and records success. -/
theorem applyPatches_success_overwrites_amended_witness :
    ((fun q => if q = toL "repo/src/a.ts" then some (toL "old") else none) : Fs)
      (joinPath (toL "repo") (normalizePath (toL "src/a.ts"))) = some (toL "old") ∧
    toL "new" ≠ ([] : Str) ∧
    (applyPatchesStep (fun _ _ => JsApplyOutcome.ok (toL "new")) (fun _ _ => none)
      (fun _ _ => []) (toL "repo")
      (fun q => if q = toL "repo/src/a.ts" then some (toL "old") else none)
      ⟨toL "src/a.ts", toL "d"⟩).1
      (joinPath (toL "repo") (normalizePath (toL "src/a.ts"))) = some (toL "new") ∧
    (applyPatchesStep (fun _ _ => JsApplyOutcome.ok (toL "new")) (fun _ _ => none)
      (fun _ _ => []) (toL "repo")
      (fun q => if q = toL "repo/src/a.ts" then some (toL "old") else none)
      ⟨toL "src/a.ts", toL "d"⟩).1
      (backupPathOf (joinPath (toL "repo") (normalizePath (toL "src/a.ts")))) = none ∧
    (applyPatchesStep (fun _ _ => JsApplyOutcome.ok (toL "new")) (fun _ _ => none)
      (fun _ _ => []) (toL "repo")
      (fun q => if q = toL "repo/src/a.ts" then some (toL "old") else none)
      ⟨toL "src/a.ts", toL "d"⟩).2.1 =
      { file := normalizePath (toL "src/a.ts"), success := true, error := none } := by
  refine ⟨by decide, by decide, ?_, ?_, ?_⟩
  · exact (applyPatches_success_overwrites_amended _ _ _ _ _ _ [] (toL "old") (toL "new")
      none (by decide) (by decide) (by decide)).1
  · exact (applyPatches_success_overwrites_amended _ _ _ _ _ _ [] (toL "old") (toL "new")
      none (by decide) (by decide) (by decide)).2.1
  · exact (applyPatches_success_overwrites_amended _ _ _ _ _ _ [] (toL "old") (toL "new")
      none (by decide) (by decide) (by decide)).2.2.2.1

/-- C7: for a modification whose target file does not exist, `applyPatches`
records a failure whose error is exactly "File does not exist on disk.",
leaves the filesystem entirely unchanged (hence creates no backup), does not
invoke the patch applicator (the recorded flag is `false`), and continues to
the next modification. -/
theorem applyPatches_missing_file
    (apf : Str → Str → JsApplyOutcome) (pcf : Str → Str → Option Str)
    (ctfp : Str → Str → Str) (root : Str) (fs : Fs) (m : FileModification)
    (ms : List FileModification)
    (h : fs (joinPath root (normalizePath m.path)) = none) :
    applyPatchesStep apf pcf ctfp root fs m =
      (fs, { file := normalizePath m.path, success := false, error := some missingFileMsg },
        false) ∧
    applyPatches apf pcf ctfp root fs (m :: ms) =
      ((applyPatches apf pcf ctfp root fs ms).1,
        { file := normalizePath m.path, success := false, error := some missingFileMsg } ::
          (applyPatches apf pcf ctfp root fs ms).2) := by
  have hstep := applyPatchesStep_missing apf pcf ctfp root fs m h
  refine ⟨hstep, ?_⟩
  rw [applyPatches_cons, hstep]

/-- Witness for C7 on an empty filesystem. -/
theorem applyPatches_missing_file_witness :
    ((fun _ => none) : Fs) (joinPath (toL "repo") (normalizePath (toL "src/a.ts"))) = none ∧
    applyPatchesStep (fun _ _ => JsApplyOutcome.threw) (fun _ _ => none) (fun _ _ => [])
      (toL "repo") (fun _ => none) ⟨toL "src/a.ts", toL "d"⟩ =
      ((fun _ => none : Fs),
        { file := normalizePath (toL "src/a.ts"), success := false,
          error := some missingFileMsg }, false) :=
  ⟨rfl, (applyPatches_missing_file _ _ _ _ _ _ [] rfl).1⟩

/-- C8: `detectIndentation` returns `useTabs = true` exactly when, among the
first 100 lines, the count of lines starting with a tab strictly exceeds the
count of lines starting with two or more spaces; the returned `tabSize`
equals the greatest common divisor of the lengths of all leading-space runs
found anywhere in the content whenever that gcd lies in `[2, 8]`, and 2
otherwise (the gcd of no runs is 0, giving the default); empty content
yields `useTabs = false, tabSize = 2`. -/
theorem detectIndentation_spec (c : Str) :
    (detectIndentation c).useTabs = decide (tabLineCount c > spaceLineCount c) ∧
    (detectIndentation c).tabSize =
      (if 2 ≤ (spaceRunLengths c).foldr Nat.gcd 0 ∧ (spaceRunLengths c).foldr Nat.gcd 0 ≤ 8
        then (spaceRunLengths c).foldr Nat.gcd 0 else 2) ∧
    detectIndentation [] = { useTabs := false, tabSize := 2 } := by
  refine ⟨?_, ?_, by decide⟩
  · simp [detectIndentation, tabLineCount, spaceLineCount, List.countP_eq_length_filter]
  · rw [detectIndentation]
    simp only
    cases hsr : spaceRunLengths c with
    | nil => simp
    | cons a t =>
      simp only
      rw [foldl_jsGcd, List.foldr_cons]

/-- C9 counterexample: `extractContentFromDiff` does not treat a zero-length
line inside a hunk as a context line with empty content — it skips it
entirely, appending nothing to either accumulator.  For a hunk `" a"`,
`""`, `" b"` the extracted old lines are exactly `["a", "b"]` with no empty
line between them, and the old content is "a\nb" rather than the claimed
"a\n\nb". -/
theorem extractContentFromDiff_blank_line_counterexample :
    extractLines (splitNl (toL "@@ -1,3 +1,3 @@\n a\n\n b")) =
      ([toL "a", toL "b"], [toL "a", toL "b"]) ∧
    (extractContentFromDiff (toL "@@ -1,3 +1,3 @@\n a\n\n b")).oldContent = toL "a\nb" ∧
    (extractContentFromDiff (toL "@@ -1,3 +1,3 @@\n a\n\n b")).newContent = toL "a\nb" ∧
    ([] : Str) ∉ (extractLines (splitNl (toL "@@ -1,3 +1,3 @@\n a\n\n b"))).1 := by
  decide

/-- C9 amended: `normalizeDiff`'s hunk collection replaces a zero-length
line inside a hunk with the single-space context line `' '` and counts it
in both the corrected header's `oldCount` and `newCount` (last conjunct:
for any parseable header followed by a blank line, the emitted corrected
header adds one to both recounted totals of the remaining collected
lines), while `extractContentFromDiff` skips zero-length lines entirely,
appending nothing to either accumulator (first conjunct). -/
theorem blank_line_handling_amended (l : Str) (rest : List Str) (h : List Str)
    (hh : HunkHeader)
    (ha : startsWith hunkPrefix l = true) (hp : findHunkHeader l = some hh) :
    extractLines (([] : Str) :: rest) = extractLines rest ∧
    collectHunk (([] : Str) :: rest) =
      ([' '] :: (collectHunk rest).1, (collectHunk rest).2) ∧
    hunkCounts ([' '] :: h) = ((hunkCounts h).1 + 1, (hunkCounts h).2 + 1) ∧
    normalizeLines (l :: ([] : Str) :: rest) =
      correctedHeader hh.oldStart (countOldLines (collectHunk rest).1 + 1)
          hh.newStart (countNewLines (collectHunk rest).1 + 1)
        :: [' '] :: (collectHunk rest).1 ++ normalizeLines (collectHunk rest).2 := by
  refine ⟨?_, collectHunk_blank rest, ?_, ?_⟩
  · rw [extractLines]
    simp [hdrOldPrefix, hdrNewPrefix, hunkPrefix]
  · rw [hunkCounts_cons]
    have h1 : (startsWith [' '] [' '] || startsWith ['-'] [' ']) = true := by decide
    have h2 : (startsWith [' '] [' '] || startsWith ['+'] [' ']) = true := by decide
    rw [h1, h2]
    simp
    constructor <;> omega
  · rw [normalizeLines_hunk (([] : Str) :: rest) hh ha hp, collectHunk_blank rest]
    have co : countOldLines ([' '] :: (collectHunk rest).1) =
        countOldLines (collectHunk rest).1 + 1 := by
      rw [countOldLines, filter_length_cons, if_pos (by decide)]
      rw [countOldLines]
      omega
    have cn : countNewLines ([' '] :: (collectHunk rest).1) =
        countNewLines (collectHunk rest).1 + 1 := by
      rw [countNewLines, filter_length_cons, if_pos (by decide)]
      rw [countNewLines]
      omega
    rw [co, cn]

/-- Witness for C9 amended at a concrete header with wrong declared counts
followed by a blank line and one context line: the blank is collected as
`' '` and the rewritten header counts it in both totals. -/
theorem blank_line_handling_amended_witness :
    startsWith hunkPrefix (toL "@@ -5,1 +9,1 @@") = true ∧
    findHunkHeader (toL "@@ -5,1 +9,1 @@") = some ⟨5, some 1, 9, some 1⟩ ∧
    normalizeLines (toL "@@ -5,1 +9,1 @@" :: ([] : Str) :: [toL " a"]) =
      [toL "@@ -5,2 +9,2 @@", toL " ", toL " a"] :=
  ⟨by decide, by decide, by
    rw [(blank_line_handling_amended (toL "@@ -5,1 +9,1 @@") [toL " a"] []
      ⟨5, some 1, 9, some 1⟩ (by decide) (by decide)).2.2.2]
    decide⟩

/-- C10 counterexample: `normalizeDiff` is not idempotent.  The input hunk
declares 7 context lines but ends with a zero-length line, which the first
pass converts to the context line `' '` and recounts to `@@ -1,8 +1,8 @@`;
against a 10-line original the normalized output now has 8 content lines,
exceeding the 0.7 full-file threshold, so the second pass classifies it as a
full-file diff and regenerates it through `createTwoFilesPatch` (here the
jsdiff model for equal old and new content), producing a completely
different string. -/
theorem normalizeDiff_not_idempotent_counterexample :
    normalizeDiff createTwoFilesPatchEq
        (normalizeDiff createTwoFilesPatchEq
          (toL "@@ -1,7 +1,7 @@\n a\n b\n c\n d\n e\n f\n g\n")
          (toL "a\nb\nc\nd\ne\nf\ng\nh\ni\nj"))
        (toL "a\nb\nc\nd\ne\nf\ng\nh\ni\nj") ≠
      normalizeDiff createTwoFilesPatchEq
        (toL "@@ -1,7 +1,7 @@\n a\n b\n c\n d\n e\n f\n g\n")
        (toL "a\nb\nc\nd\ne\nf\ng\nh\ni\nj") := by
  decide

/-- C10 amended: `normalizeDiff` is idempotent whenever its output is not
itself classified as a full-file diff against the original content — for
every external `createTwoFilesPatch`, a second pass (full-file detection,
space-to-tab conversion and header recount applied to the already-normalized
output) changes nothing.  The carve-out is forced by the counterexample: the
first pass can turn zero-length hunk lines into `' '` context lines and push
the output over the 0.7 threshold. -/
theorem normalizeDiff_idempotent_amended (ctfp : Str → Str → Str) (d c : Str)
    (h : isFullFileDiff (normalizeDiff ctfp d c) c = false) :
    normalizeDiff ctfp (normalizeDiff ctfp d c) c = normalizeDiff ctfp d c :=
  normalizeDiff_idem_helper ctfp d c h

/-- Witness for C10 amended at a small diff whose normalization is not
full-file. -/
theorem normalizeDiff_idempotent_amended_witness :
    isFullFileDiff
      (normalizeDiff (fun _ _ => []) (toL "@@ -1,1 +1,1 @@\n-x\n+y") (toL "x\nz\nw\nv\nu"))
      (toL "x\nz\nw\nv\nu") = false ∧
    normalizeDiff (fun _ _ => [])
      (normalizeDiff (fun _ _ => []) (toL "@@ -1,1 +1,1 @@\n-x\n+y") (toL "x\nz\nw\nv\nu"))
      (toL "x\nz\nw\nv\nu") =
      normalizeDiff (fun _ _ => []) (toL "@@ -1,1 +1,1 @@\n-x\n+y") (toL "x\nz\nw\nv\nu") :=
  ⟨by decide, normalizeDiff_idempotent_amended _ _ _ (by decide)⟩
